import Mathlib

/-!
# mangal, `cmd.go`: the inline command

A shallow embedding of `inlineCmd.Run` (cmd.go lines 95-229) and of the helper
`initConfig` (lines 232-249).

* Pointers to scrapers are modelled by natural numbers (the identity of the
  scraper); a `*URL` is modelled by the value it points to.
* The external collaborators (file system, configuration loader, scrapers,
  downloader, packager, JSON encoder) are the fields of `Env`.
* Every call to a collaborator and every line printed is recorded as an
  `Event`; a run yields the list of events and the way the process ended.
* `log.Fatal` ends the process with `os.Exit(1)`: deferred calls do not run.
* The goroutines of the search fan-out are run by an explicit schedule, one
  small step at a time (call `SearchManga`, load `manga`, store `manga`,
  return with the deferred `wg.Done()`).
-/

namespace Mangal

/-! ## Data model -/

/-- The `URL` struct of the source, restricted to the fields `cmd.go` uses.
`Scraper` is the back-pointer to the scraper owning the handle. -/
structure URL where
  Scraper : Nat
  Address : String
  Info : String
  Index : Int
  deriving DecidableEq, Repr

/-- The fields of `UserConfig` read or written by the inline command. -/
structure Config where
  Format : String
  Scrapers : List Nat
  UseCustomReader : Bool
  CustomReader : String
  deriving DecidableEq, Repr

/-- The command line flags of `inlineCmd` (registered at lines 417-425;
`manga` and `chapter` default to `-1`, `query`, `format`, `config` to `""`). -/
structure Flags where
  manga : Int
  chapter : Int
  query : String
  json : Bool
  format : String
  urls : Bool
  temp : Bool
  read : Bool
  config : String
  deriving DecidableEq, Repr

/-- The collaborators of the command, all outside `cmd.go`.
`Exists` is `Afero.Exists` (`none` is a non-nil error), `Clean` is
`path.Clean`, `ValidateConfig` returns the error if there is one,
`SearchManga`, `GetChapters` and `SourceBase` (the field `Source.Base`) take
the scraper they are called on, `DownloadChapter` takes the chapter and the
temporary-mode flag, `EpubFile` is the value of the global when line 174
reads it (`none` is nil; otherwise `Write` as a function of the author set
before and of the path, returning the error if there is one), `Marshal` is
`json.Marshal`. -/
structure Env where
  Exists : String → Option Bool
  Clean : String → String
  GetConfig : String → Config
  ValidateConfig : Config → Option String
  SearchManga : Nat → String → Except String (List URL)
  GetChapters : Nat → URL → Except String (List URL)
  SourceBase : Nat → String
  DownloadChapter : URL → Bool → Except String String
  EpubFile : Option (String → String → Option String)
  Marshal : List URL → Except String String

/-- What a run does to the outside world, in order. -/
inductive Event where
  | searchManga (scraper : Nat) (query : String)
  | getChapters (scraper : Nat) (manga : URL)
  | downloadChapter (chapter : URL) (asTemp : Bool)
  | setAuthor (author : String)
  | epubWrite (path : String)
  | openStart (path : String)
  | openStartWith (path : String) (reader : String)
  | println (line : String)
  | printEntry (index : Int) (info : String) (address : Option String)
  | removeTemp
  deriving DecidableEq, Repr

/-- How the process ends: the function returns, `log.Fatal` exits with the
message, or a runtime panic (slice index out of range). -/
inductive Exit where
  | returned
  | fatal (msg : String)
  | panicked
  deriving DecidableEq, Repr

/-- The body of `Run` up to the point where it stops: the events so far, how
it stopped, and the value of the captured variable `asTemp` at that point. -/
structure Body where
  trace : List Event
  exit : Exit
  asTemp : Bool
  deriving DecidableEq, Repr

/-- The events `es` happened before the body `b`. -/
def Body.after (es : List Event) (b : Body) : Body :=
  { b with trace := es ++ b.trace }

/-- The result of a run of the command. -/
structure Outcome where
  trace : List Event
  exit : Exit
  deriving DecidableEq, Repr

/-! ## `initConfig` (lines 232-249) -/

/-- The function `initConfig`: the configuration loaded, or the message of
the `log.Fatal` it ends with. -/
def initConfig (env : Env) (config : String) : Except String Config :=
  match env.Exists config with
  | none => .error "access to config file denied"
  | some ex =>
    if config ≠ "" then
      let config := env.Clean config
      if !ex then
        .error ("config at path " ++ config ++ " doesn\x27t exist")
      else
        .ok (env.GetConfig config)
    else
      .ok (env.GetConfig "")

/-! ## The search fan-out (lines 113-137) -/

/-- Where a goroutine of the fan-out stands: not started; `SearchManga` has
returned `r` (line 129); `append(manga, m...)` has been evaluated to `v` from
the value of `manga` loaded, and not yet assigned; the assignment of line 132
is made and the goroutine has not returned yet; the goroutine has returned
and its deferred `wg.Done()` (line 127) has run. -/
inductive GoState where
  | ready
  | searched (r : Except String (List URL))
  | loaded (v : List URL)
  | stored
  | done

/-- The state shared by the goroutines: the slice `manga`, the state of each
goroutine (numbered by its position in `UserConfig.Scrapers`), the
goroutines that have made the assignment of line 132 in the order of the
assignments, the goroutines that have called `wg.Done()` in the order of the
calls, and the events so far. -/
structure Shared where
  manga : List URL
  gs : Nat → GoState
  appended : List Nat
  finished : List Nat
  trace : List Event

/-- The state at line 123: `manga` is nil and no goroutine has started. -/
def Shared.init : Shared :=
  { manga := [], gs := fun _ => .ready, appended := [], finished := [], trace := [] }

/-- One step of goroutine `g` (lines 126-134): the call of `SearchManga`;
with a nil error the load of `manga` for `append(manga, m...)`, then the
assignment to `manga`, then the return with the deferred `wg.Done()`; with
an error the return with the deferred `wg.Done()`. The statement
`manga = append(manga, m...)` is not atomic: another goroutine may run
between its load and its store. -/
def stepGo (env : Env) (query : String) (scrapers : List Nat) (st : Shared) (g : Nat) :
    Shared :=
  match scrapers[g]? with
  | none => st
  | some s =>
    match st.gs g with
    | .ready =>
      { st with
        gs := Function.update st.gs g (.searched (env.SearchManga s query))
        trace := st.trace ++ [.searchManga s query] }
    | .searched (.ok m) =>
      { st with gs := Function.update st.gs g (.loaded (st.manga ++ m)) }
    | .searched (.error _) =>
      { st with gs := Function.update st.gs g .done, finished := st.finished ++ [g] }
    | .loaded v =>
      { st with manga := v, gs := Function.update st.gs g .stored,
                appended := st.appended ++ [g] }
    | .stored =>
      { st with gs := Function.update st.gs g .done, finished := st.finished ++ [g] }
    | .done => st

/-- Goroutine `g` runs until it has returned (four steps at most). -/
def finishGo (env : Env) (query : String) (scrapers : List Nat) (st : Shared) (g : Nat) :
    Shared :=
  stepGo env query scrapers
    (stepGo env query scrapers (stepGo env query scrapers (stepGo env query scrapers st g) g) g)
    g

/-- The fan-out and the join: the scheduler picks the goroutine of each step
from `sched`; at `wg.Wait()` every goroutine still running is run to its end,
in registration order, so that the join is reached under every schedule. -/
def searchAll (env : Env) (query : String) (scrapers : List Nat) (sched : List Nat) :
    Shared :=
  (List.range scrapers.length).foldl (finishGo env query scrapers)
    (sched.foldl (stepGo env query scrapers) Shared.init)

/-- The schedule in which the goroutines run one after the other, each from
its start to its return, in the order `order`. -/
def atomicSchedule (order : List Nat) : List Nat :=
  order.flatMap (fun g => [g, g, g, g])

/-- Each append to `manga` is one atomic step in the run of `sched` from the
state `st`: whenever a step leaves a goroutine between its load and its
store of `manga`, the next step is the store of that goroutine. -/
def appendsAtomic (env : Env) (query : String) (scrapers : List Nat) :
    Shared → List Nat → Bool
  | _, [] => true
  | st, g :: rest =>
    (match (stepGo env query scrapers st g).gs g with
      | .loaded _ => rest.head? == some g
      | _ => true) &&
    appendsAtomic env query scrapers (stepGo env query scrapers st g) rest

/-! ## Selection, download and listing (lines 139-228) -/

/-- Modelled from the spec: the generic helper `Find` is called at line 155
and defined outside `cmd.go`; the lookup returns the first element of the
list that satisfies the predicate, together with `ok = true`, and reports
`ok = false` (here `none`) when no element does. -/
def Find {α : Type} (list : List α) (f : α → Bool) : Option α :=
  match list with
  | [] => none
  | el :: rest => if f el then some el else Find rest f

/-- The Go slice access `xs[i]` with its runtime bounds check: `none` is the
panic. -/
def sliceIndex {α : Type} (xs : List α) (i : Int) : Option α :=
  if 0 ≤ i then xs[i.toNat]? else none

/-- Lines 181-191: with `--read` the chapter is opened in the reader,
otherwise its path is printed. -/
def deliver (cfg : Config) (f : Flags) (chapterPath : String) (asTemp : Bool) : Body :=
  if f.read then
    if cfg.UseCustomReader then
      ⟨[.openStartWith chapterPath cfg.CustomReader], .returned, asTemp⟩
    else
      ⟨[.openStart chapterPath], .returned, asTemp⟩
  else
    ⟨[.println chapterPath], .returned, asTemp⟩

/-- Lines 174-191: the packager, when there is one, then the delivery. -/
def packageAndDeliver (env : Env) (cfg : Config) (f : Flags) (selectedManga : URL)
    (chapterPath : String) (asTemp : Bool) : Body :=
  match env.EpubFile with
  | none => deliver cfg f chapterPath asTemp
  | some write =>
    let author := env.SourceBase selectedManga.Scraper
    match write author chapterPath with
    | some _ =>
      ⟨[.setAuthor author, .epubWrite chapterPath], .fatal "Error while making epub file", asTemp⟩
    | none =>
      (deliver cfg f chapterPath asTemp).after [.setAuthor author, .epubWrite chapterPath]

/-- Lines 153-191: the chapter index is given. -/
def chapterBranch (env : Env) (cfg : Config) (f : Flags) (selectedManga : URL)
    (chapters : List URL) : Body :=
  match Find chapters (fun c => c.Index == f.chapter) with
  | none => ⟨[], .fatal "Index out of range", f.temp⟩
  | some selectedChapter =>
    let asTemp := if f.read then true else f.temp
    match env.DownloadChapter selectedChapter asTemp with
    | .error _ =>
      ⟨[.downloadChapter selectedChapter asTemp], .fatal "Error while downloading chapter", asTemp⟩
    | .ok chapterPath =>
      (packageAndDeliver env cfg f selectedManga chapterPath asTemp).after
        [.downloadChapter selectedChapter asTemp]

/-- Lines 194-209: the chapters are listed. -/
def listChapters (env : Env) (f : Flags) (chapters : List URL) : Body :=
  if f.json then
    match env.Marshal chapters with
    | .error _ => ⟨[], .fatal "Could not get data as json", f.temp⟩
    | .ok data => ⟨[.println data], .returned, f.temp⟩
  else
    ⟨chapters.map (fun c =>
        if f.urls then .printEntry c.Index c.Info (some c.Address)
        else .printEntry c.Index c.Info none),
      .returned, f.temp⟩

/-- Lines 212-227: the merged results are listed, numbered from 1. -/
def listManga (env : Env) (f : Flags) (manga : List URL) : Body :=
  if f.json then
    match env.Marshal manga with
    | .error _ => ⟨[], .fatal "Could not get data as json", f.temp⟩
    | .ok data => ⟨[.println data], .returned, f.temp⟩
  else
    ⟨manga.enum.map (fun im =>
        if f.urls then .printEntry ((im.1 : Int) + 1) im.2.Info (some im.2.Address)
        else .printEntry ((im.1 : Int) + 1) im.2.Info none),
      .returned, f.temp⟩

/-- Lines 141-146: the guard on the manga index and the slice access. The
result is the way the command stops there, or the manga selected. -/
def selectManga (f : Flags) (manga : List URL) : Except Exit URL :=
  if f.manga > (manga.length : Int) ∨ f.manga ≤ 0 then
    .error (.fatal "Index out of range")
  else
    match sliceIndex manga (f.manga - 1) with
    | none => .error .panicked
    | some selectedManga => .ok selectedManga

/-- Lines 139-228: everything after the join. -/
def afterSearch (env : Env) (cfg : Config) (f : Flags) (manga : List URL) : Body :=
  if f.manga ≠ -1 then
    match selectManga f manga with
    | .error e => ⟨[], e, f.temp⟩
    | .ok selectedManga =>
      match env.GetChapters selectedManga.Scraper selectedManga with
      | .error _ =>
        ⟨[.getChapters selectedManga.Scraper selectedManga],
          .fatal "Error while getting chapters", f.temp⟩
      | .ok chapters =>
        (if f.chapter ≠ -1 then chapterBranch env cfg f selectedManga chapters
          else listChapters env f chapters).after
          [.getChapters selectedManga.Scraper selectedManga]
  else
    listManga env f manga

/-! ## The command (lines 95-229) -/

/-- The configuration the command works with (lines 103-107), or the message
of the `log.Fatal` of lines 109-111 and of `initConfig`. -/
def loadConfig (env : Env) (f : Flags) : Except String Config :=
  match initConfig env f.config with
  | .error e => .error e
  | .ok cfg0 =>
    let cfg := if f.format ≠ "" then { cfg0 with Format := f.format } else cfg0
    match env.ValidateConfig cfg with
    | some e => .error e
    | none => .ok cfg

/-- The body of `Run`, without the deferred call. -/
def inlineBody (env : Env) (f : Flags) (sched : List Nat) : Body :=
  match loadConfig env f with
  | .error e => ⟨[], .fatal e, f.temp⟩
  | .ok cfg =>
    if f.query = "" then
      ⟨[], .fatal "Query expected", f.temp⟩
    else
      let st := searchAll env f.query cfg.Scrapers sched
      (afterSearch env cfg f st.manga).after st.trace

/-- The deferred call of lines 97-101: it runs when the function returns or
panics, not when `log.Fatal` ends the process, and it reads `asTemp` when it
runs. -/
def runDeferred (b : Body) : Outcome :=
  match b.exit with
  | .fatal msg => ⟨b.trace, .fatal msg⟩
  | e => ⟨if !b.asTemp then b.trace ++ [.removeTemp] else b.trace, e⟩

/-- The function `Run` of `inlineCmd`: the body, then the deferred call. -/
def Run (env : Env) (f : Flags) (sched : List Nat) : Outcome :=
  runDeferred (inlineBody env f sched)

/-! ## Reference notions used in the statements -/

/-- What the goroutine of scraper `s` has to add to `manga`: the list
returned by `SearchManga` when it succeeds, nothing when it fails. -/
def contribution (env : Env) (query : String) (s : Nat) : List URL :=
  match env.SearchManga s query with
  | .ok m => m
  | .error _ => []

/-- The scrapers at the positions `order` of `UserConfig.Scrapers`. -/
def scrapersAt (scrapers : List Nat) (order : List Nat) : List Nat :=
  order.filterMap (fun g => scrapers[g]?)

/-- The concatenation of the successful result lists with the scrapers taken
in the given order. -/
def mergeInOrder (env : Env) (query : String) (scrapers : List Nat) : List URL :=
  scrapers.flatMap (contribution env query)

/-- The goroutine at the position `g` has a scraper whose search succeeds. -/
def succeeds (env : Env) (query : String) (scrapers : List Nat) (g : Nat) : Bool :=
  match scrapers[g]? with
  | none => false
  | some s =>
    match env.SearchManga s query with
    | .ok _ => true
    | .error _ => false

/-- The invariant of the fan-out between two appends, when the appends are
atomic: `manga` is the concatenation of the contributions of the goroutines
that have appended, in the order of their appends; these are the goroutines
with a successful search that have made their assignment; the goroutines
that have called `wg.Done()` are those that have returned; and no goroutine
stands between its load and its store of `manga`. -/
structure Settled (env : Env) (query : String) (scrapers : List Nat) (st : Shared) :
    Prop where
  manga_eq : st.manga = mergeInOrder env query (scrapersAt scrapers st.appended)
  appended_iff : ∀ g, g ∈ st.appended ↔
    (succeeds env query scrapers g = true ∧ (st.gs g = .stored ∨ st.gs g = .done))
  stored_ok : ∀ g, st.gs g = .stored → succeeds env query scrapers g = true
  done_iff : ∀ g, g ∈ st.finished ↔ st.gs g = .done
  states : ∀ g s, scrapers[g]? = some s →
    st.gs g = .ready ∨ st.gs g = .searched (env.SearchManga s query) ∨
      st.gs g = .stored ∨ st.gs g = .done
  idle : ∀ g, scrapers[g]? = none → st.gs g = .ready
  appended_nodup : st.appended.Nodup
  finished_nodup : st.finished.Nodup
  bound : ∀ g ∈ st.finished, g < scrapers.length

/-- The event is a call of `SearchManga`. -/
def Event.isSearch : Event → Bool
  | .searchManga _ _ => true
  | _ => false

/-- The event is a call of `GetChapters`. -/
def Event.isGetChapters : Event → Bool
  | .getChapters _ _ => true
  | _ => false

/-- The event is a call of `DownloadChapter`. -/
def Event.isDownload : Event → Bool
  | .downloadChapter _ _ => true
  | _ => false

/-- The event is a call of the packager (`SetAuthor` or `Write`). -/
def Event.isPackager : Event → Bool
  | .setAuthor _ => true
  | .epubWrite _ => true
  | _ => false

/-- The event hands a path or a listing to the caller (a line printed, or
the reader opened). -/
def Event.isDelivery : Event → Bool
  | .println _ => true
  | .printEntry _ _ _ => true
  | .openStart _ => true
  | .openStartWith _ _ => true
  | _ => false

/-- The index printed by a line `[index] info` of a listing. -/
def Event.printedIndex : Event → Option Int
  | .printEntry index _ _ => some index
  | _ => none

/-- The paths through the command from line 139 on, for the merged list
`manga`: each constructor is one path, with the conditions under which it is
taken and what the command has done when it stops. -/
inductive RunsAs (env : Env) (cfg : Config) (f : Flags) (manga : List URL) : Body → Prop
  | mangaListed (hm : f.manga = -1) : RunsAs env cfg f manga (listManga env f manga)
  | mangaOutOfRange (hm : f.manga ≠ -1)
      (hr : f.manga ≤ 0 ∨ f.manga > (manga.length : Int)) :
      RunsAs env cfg f manga ⟨[], .fatal "Index out of range", f.temp⟩
  | chaptersFailed (sel : URL) (err : String) (hm : f.manga ≠ -1)
      (hsel : selectManga f manga = .ok sel)
      (hch : env.GetChapters sel.Scraper sel = .error err) :
      RunsAs env cfg f manga
        ⟨[.getChapters sel.Scraper sel], .fatal "Error while getting chapters", f.temp⟩
  | chaptersListed (sel : URL) (chapters : List URL) (hm : f.manga ≠ -1)
      (hsel : selectManga f manga = .ok sel)
      (hch : env.GetChapters sel.Scraper sel = .ok chapters) (hc : f.chapter = -1) :
      RunsAs env cfg f manga
        ((listChapters env f chapters).after [.getChapters sel.Scraper sel])
  | chapterOutOfRange (sel : URL) (chapters : List URL) (hm : f.manga ≠ -1)
      (hsel : selectManga f manga = .ok sel)
      (hch : env.GetChapters sel.Scraper sel = .ok chapters) (hc : f.chapter ≠ -1)
      (hfind : Find chapters (fun c => c.Index == f.chapter) = none) :
      RunsAs env cfg f manga
        ⟨[.getChapters sel.Scraper sel], .fatal "Index out of range", f.temp⟩
  | fetchFailed (sel : URL) (chapters : List URL) (ch : URL) (err : String)
      (hm : f.manga ≠ -1) (hsel : selectManga f manga = .ok sel)
      (hch : env.GetChapters sel.Scraper sel = .ok chapters) (hc : f.chapter ≠ -1)
      (hfind : Find chapters (fun c => c.Index == f.chapter) = some ch)
      (hdl : env.DownloadChapter ch (f.temp || f.read) = .error err) :
      RunsAs env cfg f manga
        ⟨[.getChapters sel.Scraper sel, .downloadChapter ch (f.temp || f.read)],
          .fatal "Error while downloading chapter", f.temp || f.read⟩
  | fetched (sel : URL) (chapters : List URL) (ch : URL) (p : String)
      (hm : f.manga ≠ -1) (hsel : selectManga f manga = .ok sel)
      (hch : env.GetChapters sel.Scraper sel = .ok chapters) (hc : f.chapter ≠ -1)
      (hfind : Find chapters (fun c => c.Index == f.chapter) = some ch)
      (hdl : env.DownloadChapter ch (f.temp || f.read) = .ok p)
      (hepub : env.EpubFile = none) :
      RunsAs env cfg f manga
        ⟨[.getChapters sel.Scraper sel, .downloadChapter ch (f.temp || f.read)] ++
            (deliver cfg f p (f.temp || f.read)).trace,
          .returned, f.temp || f.read⟩
  | packageFailed (sel : URL) (chapters : List URL) (ch : URL) (p : String)
      (write : String → String → Option String) (err : String)
      (hm : f.manga ≠ -1) (hsel : selectManga f manga = .ok sel)
      (hch : env.GetChapters sel.Scraper sel = .ok chapters) (hc : f.chapter ≠ -1)
      (hfind : Find chapters (fun c => c.Index == f.chapter) = some ch)
      (hdl : env.DownloadChapter ch (f.temp || f.read) = .ok p)
      (hepub : env.EpubFile = some write)
      (hw : write (env.SourceBase sel.Scraper) p = some err) :
      RunsAs env cfg f manga
        ⟨[.getChapters sel.Scraper sel, .downloadChapter ch (f.temp || f.read),
            .setAuthor (env.SourceBase sel.Scraper), .epubWrite p],
          .fatal "Error while making epub file", f.temp || f.read⟩
  | packaged (sel : URL) (chapters : List URL) (ch : URL) (p : String)
      (write : String → String → Option String)
      (hm : f.manga ≠ -1) (hsel : selectManga f manga = .ok sel)
      (hch : env.GetChapters sel.Scraper sel = .ok chapters) (hc : f.chapter ≠ -1)
      (hfind : Find chapters (fun c => c.Index == f.chapter) = some ch)
      (hdl : env.DownloadChapter ch (f.temp || f.read) = .ok p)
      (hepub : env.EpubFile = some write)
      (hw : write (env.SourceBase sel.Scraper) p = none) :
      RunsAs env cfg f manga
        ⟨[.getChapters sel.Scraper sel, .downloadChapter ch (f.temp || f.read),
            .setAuthor (env.SourceBase sel.Scraper), .epubWrite p] ++
            (deliver cfg f p (f.temp || f.read)).trace,
          .returned, f.temp || f.read⟩

/-! ## Sample data

Three scrapers `A`, `B`, `C` registered in this order at the positions 0, 1,
2: `A` finds two results, `B` fails, `C` finds one result. -/

/-- First result of scraper `A`. -/
def a1 : URL := { Scraper := 0, Address := "https://a/one", Info := "One", Index := 1 }

/-- Second result of scraper `A`. -/
def a2 : URL := { Scraper := 0, Address := "https://a/two", Info := "Two", Index := 2 }

/-- The result of scraper `C`. -/
def c1 : URL := { Scraper := 2, Address := "https://c/one", Info := "One C", Index := 1 }

/-- First chapter of a manga. -/
def ch1 : URL := { Scraper := 0, Address := "https://a/two/1", Info := "Chapter 1", Index := 1 }

/-- Second chapter of a manga. -/
def ch2 : URL := { Scraper := 0, Address := "https://a/two/2", Info := "Chapter 2", Index := 2 }

/-- The configuration with the three scrapers. -/
def demoConfig : Config :=
  { Format := "pdf", Scrapers := [0, 1, 2], UseCustomReader := false, CustomReader := "" }

/-- An environment in which the configuration is valid, every manga has the
chapters `ch1`, `ch2`, every download succeeds, and there is no packager. -/
def demoEnv : Env where
  Exists := fun _ => some true
  Clean := fun p => p
  GetConfig := fun _ => demoConfig
  ValidateConfig := fun _ => none
  SearchManga := fun s _ =>
    match s with
    | 0 => .ok [a1, a2]
    | 2 => .ok [c1]
    | _ => .error "timeout"
  GetChapters := fun _ _ => .ok [ch1, ch2]
  SourceBase := fun s => if s = 0 then "https://a" else "https://c"
  DownloadChapter := fun c _ => .ok ("/downloads/" ++ c.Info)
  EpubFile := none
  Marshal := fun _ => .ok "[]"

/-- The sample environment with a packager whose `Write` always fails. -/
def packagerFailsEnv : Env :=
  { demoEnv with EpubFile := some (fun _ _ => some "disk full") }

/-- The sample environment with a packager whose `Write` always succeeds. -/
def packagerWorksEnv : Env :=
  { demoEnv with EpubFile := some (fun _ _ => none) }

/-- The sample environment with a downloader that always fails. -/
def downloadFailsEnv : Env :=
  { packagerWorksEnv with DownloadChapter := fun _ _ => .error "connection reset" }

/-- The sample environment with a configuration that does not validate. -/
def invalidConfigEnv : Env :=
  { demoEnv with ValidateConfig := fun _ => some "unknown format" }

/-- The flags of `inline --query x`: every other flag has its default. -/
def demoFlags : Flags :=
  { manga := -1, chapter := -1, query := "x", json := false, format := "", urls := false,
    temp := false, read := false, config := "" }

/-! ## The search fan-out: lemmas -/

theorem stepGo_trace (env : Env) (query : String) (scrapers : List Nat) (st : Shared)
    (g : Nat) (h : ∀ e ∈ st.trace, e.isSearch = true) :
    ∀ e ∈ (stepGo env query scrapers st g).trace, e.isSearch = true := by
  unfold stepGo
  split
  · exact h
  · split <;> first
      | exact h
      | (intro e he
         simp only [List.mem_append, List.mem_singleton] at he
         rcases he with he | he
         · exact h e he
         · subst he; rfl)

theorem foldl_stepGo_trace (env : Env) (query : String) (scrapers : List Nat)
    (sched : List Nat) (st : Shared) (h : ∀ e ∈ st.trace, e.isSearch = true) :
    ∀ e ∈ (sched.foldl (stepGo env query scrapers) st).trace, e.isSearch = true := by
  induction sched generalizing st with
  | nil => exact h
  | cons g rest ih => exact ih _ (stepGo_trace env query scrapers st g h)

theorem finishGo_trace (env : Env) (query : String) (scrapers : List Nat) (st : Shared)
    (g : Nat) (h : ∀ e ∈ st.trace, e.isSearch = true) :
    ∀ e ∈ (finishGo env query scrapers st g).trace, e.isSearch = true :=
  stepGo_trace _ _ _ _ _ (stepGo_trace _ _ _ _ _ (stepGo_trace _ _ _ _ _
    (stepGo_trace _ _ _ _ _ h)))

theorem foldl_finishGo_trace (env : Env) (query : String) (scrapers : List Nat)
    (gs : List Nat) (st : Shared) (h : ∀ e ∈ st.trace, e.isSearch = true) :
    ∀ e ∈ (gs.foldl (finishGo env query scrapers) st).trace, e.isSearch = true := by
  induction gs generalizing st with
  | nil => exact h
  | cons g rest ih => exact ih _ (finishGo_trace env query scrapers st g h)

/-- Under every schedule the search phase does nothing but call
`SearchManga`. -/
theorem searchAll_trace (env : Env) (query : String) (scrapers : List Nat)
    (sched : List Nat) :
    ∀ e ∈ (searchAll env query scrapers sched).trace, e.isSearch = true := by
  unfold searchAll
  apply foldl_finishGo_trace
  apply foldl_stepGo_trace
  intro e he
  simp [Shared.init] at he

/-- A step of a position without a scraper does nothing. -/
theorem stepGo_none (env : Env) (query : String) (scrapers : List Nat) (st : Shared)
    (g : Nat) (hs : scrapers[g]? = none) : stepGo env query scrapers st g = st := by
  unfold stepGo
  rw [hs]

/-- A goroutine that has returned does nothing more. -/
theorem stepGo_done (env : Env) (query : String) (scrapers : List Nat) (st : Shared)
    (g : Nat) (hg : st.gs g = .done) : stepGo env query scrapers st g = st := by
  unfold stepGo
  split
  · rfl
  · simp [hg]

theorem finishGo_done (env : Env) (query : String) (scrapers : List Nat) (st : Shared)
    (g : Nat) (hg : st.gs g = .done) : finishGo env query scrapers st g = st := by
  unfold finishGo
  have h1 := stepGo_done env query scrapers st g hg
  rw [h1, h1, h1, h1]

theorem finishGo_none (env : Env) (query : String) (scrapers : List Nat) (st : Shared)
    (g : Nat) (hs : scrapers[g]? = none) : finishGo env query scrapers st g = st := by
  unfold finishGo
  have h1 := stepGo_none env query scrapers st g hs
  rw [h1, h1, h1, h1]

/-- A goroutine that has not started, run to its return without
interruption, appends its contribution to `manga`: it is recorded among the
appends when its search succeeds, and among the returns in any case. -/
theorem finishGo_ready (env : Env) (query : String) (scrapers : List Nat) (st : Shared)
    (g s : Nat) (hs : scrapers[g]? = some s) (hg : st.gs g = .ready) :
    finishGo env query scrapers st g =
      { manga := st.manga ++ contribution env query s
        gs := Function.update st.gs g .done
        appended := st.appended ++ [g].filter (succeeds env query scrapers)
        finished := st.finished ++ [g]
        trace := st.trace ++ [.searchManga s query] } := by
  unfold finishGo contribution
  cases hr : env.SearchManga s query <;>
    simp [stepGo, succeeds, hs, hg, hr, Function.update_same, Function.update_idem]

theorem foldl_finishGo_done (env : Env) (query : String) (scrapers : List Nat)
    (gs : List Nat) (st : Shared) (h : ∀ g ∈ gs, st.gs g = .done) :
    gs.foldl (finishGo env query scrapers) st = st := by
  induction gs with
  | nil => rfl
  | cons g rest ih =>
    rw [List.foldl_cons, finishGo_done env query scrapers st g (h g (List.mem_cons_self _ _))]
    exact ih (fun g hg => h g (List.mem_cons_of_mem _ hg))

theorem foldl_atomicSchedule (env : Env) (query : String) (scrapers : List Nat)
    (order : List Nat) (st : Shared) :
    (atomicSchedule order).foldl (stepGo env query scrapers) st =
      order.foldl (finishGo env query scrapers) st := by
  induction order generalizing st with
  | nil => rfl
  | cons g rest ih =>
    simp only [atomicSchedule, List.flatMap_cons, List.foldl_append, List.foldl_cons,
      List.foldl_nil] at ih ⊢
    rw [ih]
    rfl

/-- The goroutines at the positions `order`, none of them started and no
position repeated, run one after the other: `manga` grows by their
contributions in that order, those with a successful search append in that
order, and all of them return in that order. -/
theorem foldl_finishGo_ready (env : Env) (query : String) (scrapers : List Nat)
    (order : List Nat) (st : Shared) (hready : ∀ g ∈ order, st.gs g = .ready)
    (hnodup : order.Nodup) (hlt : ∀ g ∈ order, g < scrapers.length) :
    (order.foldl (finishGo env query scrapers) st).manga =
        st.manga ++ mergeInOrder env query (scrapersAt scrapers order) ∧
      (order.foldl (finishGo env query scrapers) st).trace =
        st.trace ++ (scrapersAt scrapers order).map (fun s => .searchManga s query) ∧
      (order.foldl (finishGo env query scrapers) st).appended =
        st.appended ++ order.filter (succeeds env query scrapers) ∧
      (order.foldl (finishGo env query scrapers) st).finished = st.finished ++ order ∧
      (∀ g ∈ order, (order.foldl (finishGo env query scrapers) st).gs g = .done) ∧
      (∀ g, g ∉ order → (order.foldl (finishGo env query scrapers) st).gs g = st.gs g) := by
  induction order generalizing st with
  | nil => simp [mergeInOrder, scrapersAt]
  | cons g rest ih =>
    have hg : g < scrapers.length := hlt g (List.mem_cons_self _ _)
    have hs : scrapers[g]? = some scrapers[g] := List.getElem?_eq_getElem hg
    have hnd := List.nodup_cons.mp hnodup
    rw [List.foldl_cons, finishGo_ready env query scrapers st g _ hs
      (hready g (List.mem_cons_self _ _))]
    have hrest : ∀ h ∈ rest, (Function.update st.gs g GoState.done) h = .ready := by
      intro h hh
      have hne : h ≠ g := fun e => hnd.1 (e ▸ hh)
      rw [Function.update_noteq hne]
      exact hready h (List.mem_cons_of_mem _ hh)
    obtain ⟨h1, h2, h6, h5, h3, h4⟩ := ih
      { manga := st.manga ++ contribution env query scrapers[g]
        gs := Function.update st.gs g .done
        appended := st.appended ++ [g].filter (succeeds env query scrapers)
        finished := st.finished ++ [g]
        trace := st.trace ++ [.searchManga scrapers[g] query] }
      hrest hnd.2 (fun h hh => hlt h (List.mem_cons_of_mem _ hh))
    refine ⟨?_, ?_, ?_, ?_, ?_, ?_⟩
    · rw [h1]
      simp [mergeInOrder, scrapersAt, List.filterMap_cons, hs]
    · rw [h2]
      simp [scrapersAt, List.filterMap_cons, hs]
    · rw [h6, List.append_assoc, ← List.filter_append]
      rfl
    · rw [h5]
      simp
    · intro h hh
      rcases List.mem_cons.mp hh with e | hh
      · subst e
        rw [h4 h hnd.1]
        simp
      · exact h3 h hh
    · intro h hh
      have hne : h ≠ g := fun e => hh (e ▸ List.mem_cons_self _ _)
      rw [h4 h (fun hm => hh (List.mem_cons_of_mem _ hm))]
      simp [Function.update_noteq hne]

/-- The scrapers at the positions `0, 1, ...` are the scrapers. -/
theorem scrapersAt_range (scrapers : List Nat) :
    scrapersAt scrapers (List.range scrapers.length) = scrapers := by
  unfold scrapersAt
  induction scrapers with
  | nil => rfl
  | cons a rest ih =>
    rw [List.length_cons, List.range_succ_eq_map, List.filterMap_cons]
    simp only [List.getElem?_cons_zero, List.filterMap_map]
    congr 1
    have hf : ((fun g => (a :: rest)[g]?) ∘ Nat.succ) = fun g => rest[g]? := by
      funext g
      simp
    rw [hf]
    exact ih

theorem scrapersAt_append_singleton (scrapers : List Nat) (l : List Nat) (g s : Nat)
    (hs : scrapers[g]? = some s) :
    scrapersAt scrapers (l ++ [g]) = scrapersAt scrapers l ++ [s] := by
  simp [scrapersAt, List.filterMap_append, hs]

theorem mergeInOrder_append_singleton (env : Env) (query : String) (l : List Nat) (s : Nat) :
    mergeInOrder env query (l ++ [s]) = mergeInOrder env query l ++ contribution env query s := by
  simp [mergeInOrder]

theorem succeeds_of_ok (env : Env) (query : String) (scrapers : List Nat) (g s : Nat)
    (m : List URL) (hs : scrapers[g]? = some s) (hr : env.SearchManga s query = .ok m) :
    succeeds env query scrapers g = true := by
  simp [succeeds, hs, hr]

theorem succeeds_of_error (env : Env) (query : String) (scrapers : List Nat) (g s : Nat)
    (e : String) (hs : scrapers[g]? = some s) (hr : env.SearchManga s query = .error e) :
    succeeds env query scrapers g = false := by
  simp [succeeds, hs, hr]

theorem succeeds_lt (env : Env) (query : String) (scrapers : List Nat) (g : Nat)
    (h : succeeds env query scrapers g = true) : g < scrapers.length := by
  unfold succeeds at h
  cases hs : scrapers[g]? with
  | none => simp [hs] at h
  | some s => exact (List.getElem?_eq_some_iff.mp hs).1

theorem settled_init (env : Env) (query : String) (scrapers : List Nat) :
    Settled env query scrapers Shared.init where
  manga_eq := rfl
  appended_iff := by simp [Shared.init]
  stored_ok := by simp [Shared.init]
  done_iff := by simp [Shared.init]
  states := fun _ _ _ => Or.inl rfl
  idle := fun _ _ => rfl
  appended_nodup := List.nodup_nil
  finished_nodup := List.nodup_nil
  bound := by simp [Shared.init]

/-- The call of `SearchManga` keeps the invariant. -/
theorem settled_search (env : Env) (query : String) (scrapers : List Nat) (st : Shared)
    (g s : Nat) (tr : List Event) (hS : Settled env query scrapers st)
    (hs : scrapers[g]? = some s) (hg : st.gs g = .ready) :
    Settled env query scrapers
      { manga := st.manga
        gs := Function.update st.gs g (.searched (env.SearchManga s query))
        appended := st.appended
        finished := st.finished
        trace := tr } where
  manga_eq := hS.manga_eq
  appended_iff := by
    intro h
    by_cases hh : h = g
    · subst hh
      simp [hS.appended_iff, hg]
    · simp [Function.update_noteq hh, hS.appended_iff h]
  stored_ok := by
    intro h
    by_cases hh : h = g
    · subst hh
      simp
    · simpa [Function.update_noteq hh] using hS.stored_ok h
  done_iff := by
    intro h
    by_cases hh : h = g
    · subst hh
      simp [hS.done_iff, hg]
    · simp [Function.update_noteq hh, hS.done_iff h]
  states := by
    intro h s2 hs2
    by_cases hh : h = g
    · subst hh
      rw [hs] at hs2
      cases hs2
      simp
    · simpa [Function.update_noteq hh] using hS.states h s2 hs2
  idle := by
    intro h hnone
    have hh : h ≠ g := by
      rintro rfl
      rw [hs] at hnone
      cases hnone
    simpa [Function.update_noteq hh] using hS.idle h hnone
  appended_nodup := hS.appended_nodup
  finished_nodup := hS.finished_nodup
  bound := hS.bound

/-- The return of a goroutine, after a failed search or after its append,
keeps the invariant. -/
theorem settled_return (env : Env) (query : String) (scrapers : List Nat) (st : Shared)
    (g s : Nat) (tr : List Event) (hS : Settled env query scrapers st)
    (hs : scrapers[g]? = some s)
    (hg : st.gs g = .stored ∨
      (∃ e, st.gs g = .searched (.error e) ∧ env.SearchManga s query = .error e)) :
    Settled env query scrapers
      { manga := st.manga
        gs := Function.update st.gs g .done
        appended := st.appended
        finished := st.finished ++ [g]
        trace := tr } where
  manga_eq := hS.manga_eq
  appended_iff := by
    intro h
    by_cases hh : h = g
    · subst hh
      rcases hg with hg | ⟨e, hg, hr⟩
      · simp [hS.appended_iff, hg]
      · simp [hS.appended_iff, hg, succeeds_of_error env query scrapers h s e hs hr]
    · simp [Function.update_noteq hh, hS.appended_iff h]
  stored_ok := by
    intro h
    by_cases hh : h = g
    · subst hh
      simp
    · simpa [Function.update_noteq hh] using hS.stored_ok h
  done_iff := by
    intro h
    by_cases hh : h = g
    · subst hh
      simp
    · simp [Function.update_noteq hh, hh, hS.done_iff h]
  states := by
    intro h s2 hs2
    by_cases hh : h = g
    · subst hh
      simp
    · simpa [Function.update_noteq hh] using hS.states h s2 hs2
  idle := by
    intro h hnone
    have hh : h ≠ g := by
      rintro rfl
      rw [hs] at hnone
      cases hnone
    simpa [Function.update_noteq hh] using hS.idle h hnone
  appended_nodup := hS.appended_nodup
  finished_nodup := by
    simp only
    rw [List.nodup_append]
    refine ⟨hS.finished_nodup, List.nodup_singleton g, ?_⟩
    intro a ha hb
    simp only [List.mem_singleton] at hb
    subst hb
    have hd := (hS.done_iff a).mp ha
    rcases hg with hg | ⟨e, hg, -⟩ <;> rw [hg] at hd <;> cases hd
  bound := by
    intro h hh
    simp only [List.mem_append, List.mem_singleton] at hh
    rcases hh with hh | rfl
    · exact hS.bound h hh
    · exact (List.getElem?_eq_some_iff.mp hs).1

/-- The append of a goroutine whose search succeeded, made in one step,
keeps the invariant. -/
theorem settled_store (env : Env) (query : String) (scrapers : List Nat) (st : Shared)
    (g s : Nat) (m : List URL) (tr : List Event) (hS : Settled env query scrapers st)
    (hs : scrapers[g]? = some s) (hg : st.gs g = .searched (.ok m))
    (hr : env.SearchManga s query = .ok m) :
    Settled env query scrapers
      { manga := st.manga ++ m
        gs := Function.update st.gs g .stored
        appended := st.appended ++ [g]
        finished := st.finished
        trace := tr } where
  manga_eq := by
    have hc : contribution env query s = m := by
      unfold contribution
      rw [hr]
    simp only
    rw [scrapersAt_append_singleton scrapers _ g s hs, mergeInOrder_append_singleton,
      ← hS.manga_eq, hc]
  appended_iff := by
    intro h
    by_cases hh : h = g
    · subst hh
      simp [succeeds_of_ok env query scrapers h s m hs hr]
    · simp [Function.update_noteq hh, hh, hS.appended_iff h]
  stored_ok := by
    intro h
    by_cases hh : h = g
    · subst hh
      intro _
      exact succeeds_of_ok env query scrapers h s m hs hr
    · simpa [Function.update_noteq hh] using hS.stored_ok h
  done_iff := by
    intro h
    by_cases hh : h = g
    · subst hh
      simp [hS.done_iff, hg]
    · simp [Function.update_noteq hh, hS.done_iff h]
  states := by
    intro h s2 hs2
    by_cases hh : h = g
    · subst hh
      simp
    · simpa [Function.update_noteq hh] using hS.states h s2 hs2
  idle := by
    intro h hnone
    have hh : h ≠ g := by
      rintro rfl
      rw [hs] at hnone
      cases hnone
    simpa [Function.update_noteq hh] using hS.idle h hnone
  appended_nodup := by
    simp only
    rw [List.nodup_append]
    refine ⟨hS.appended_nodup, List.nodup_singleton g, ?_⟩
    intro a ha hb
    simp only [List.mem_singleton] at hb
    subst hb
    have hd := ((hS.appended_iff a).mp ha).2
    rw [hg] at hd
    rcases hd with hd | hd <;> cases hd
  finished_nodup := hS.finished_nodup
  bound := hS.bound

theorem stepGo_ready_eq (env : Env) (query : String) (scrapers : List Nat) (st : Shared)
    (g s : Nat) (hs : scrapers[g]? = some s) (hg : st.gs g = .ready) :
    stepGo env query scrapers st g =
      { manga := st.manga
        gs := Function.update st.gs g (.searched (env.SearchManga s query))
        appended := st.appended
        finished := st.finished
        trace := st.trace ++ [.searchManga s query] } := by
  unfold stepGo
  rw [hs]
  simp only
  rw [hg]

theorem stepGo_error_eq (env : Env) (query : String) (scrapers : List Nat) (st : Shared)
    (g s : Nat) (e : String) (hs : scrapers[g]? = some s)
    (hg : st.gs g = .searched (.error e)) :
    stepGo env query scrapers st g =
      { manga := st.manga
        gs := Function.update st.gs g .done
        appended := st.appended
        finished := st.finished ++ [g]
        trace := st.trace } := by
  unfold stepGo
  rw [hs]
  simp only
  rw [hg]

theorem stepGo_ok_eq (env : Env) (query : String) (scrapers : List Nat) (st : Shared)
    (g s : Nat) (m : List URL) (hs : scrapers[g]? = some s)
    (hg : st.gs g = .searched (.ok m)) :
    stepGo env query scrapers st g =
      { manga := st.manga
        gs := Function.update st.gs g (.loaded (st.manga ++ m))
        appended := st.appended
        finished := st.finished
        trace := st.trace } := by
  unfold stepGo
  rw [hs]
  simp only
  rw [hg]

theorem stepGo_loaded_eq (env : Env) (query : String) (scrapers : List Nat) (st : Shared)
    (g s : Nat) (v : List URL) (hs : scrapers[g]? = some s) (hg : st.gs g = .loaded v) :
    stepGo env query scrapers st g =
      { manga := v
        gs := Function.update st.gs g .stored
        appended := st.appended ++ [g]
        finished := st.finished
        trace := st.trace } := by
  unfold stepGo
  rw [hs]
  simp only
  rw [hg]

theorem stepGo_stored_eq (env : Env) (query : String) (scrapers : List Nat) (st : Shared)
    (g s : Nat) (hs : scrapers[g]? = some s) (hg : st.gs g = .stored) :
    stepGo env query scrapers st g =
      { manga := st.manga
        gs := Function.update st.gs g .done
        appended := st.appended
        finished := st.finished ++ [g]
        trace := st.trace } := by
  unfold stepGo
  rw [hs]
  simp only
  rw [hg]

/-- The load and the store of a goroutine whose search succeeded, one right
after the other. -/
theorem stepGo_append_eq (env : Env) (query : String) (scrapers : List Nat) (st : Shared)
    (g s : Nat) (m : List URL) (hs : scrapers[g]? = some s)
    (hg : st.gs g = .searched (.ok m)) :
    stepGo env query scrapers (stepGo env query scrapers st g) g =
      { manga := st.manga ++ m
        gs := Function.update st.gs g .stored
        appended := st.appended ++ [g]
        finished := st.finished
        trace := st.trace } := by
  rw [stepGo_ok_eq env query scrapers st g s m hs hg,
    stepGo_loaded_eq env query scrapers _ g s (st.manga ++ m) hs (by simp)]
  simp [Function.update_idem]

/-- A goroutine that has returned stays so, whatever goroutine steps. -/
theorem stepGo_gs_done (env : Env) (query : String) (scrapers : List Nat) (st : Shared)
    (g h : Nat) (hg : st.gs g = .done) : (stepGo env query scrapers st h).gs g = .done := by
  by_cases hh : h = g
  · subst hh
    rw [stepGo_done env query scrapers st h hg]
    exact hg
  · have hne : g ≠ h := fun e => hh e.symm
    unfold stepGo
    split
    · exact hg
    · split <;> simp [Function.update_noteq hne, hg]

theorem finishGo_gs_done (env : Env) (query : String) (scrapers : List Nat) (st : Shared)
    (g h : Nat) (hg : st.gs g = .done) : (finishGo env query scrapers st h).gs g = .done :=
  stepGo_gs_done _ _ _ _ _ _ (stepGo_gs_done _ _ _ _ _ _ (stepGo_gs_done _ _ _ _ _ _
    (stepGo_gs_done _ _ _ _ _ _ hg)))

/-- One step from a state that satisfies the invariant: either the invariant
holds again and the goroutine is not between its load and its store, or the
goroutine has loaded `manga` and the invariant holds after its store. -/
theorem settled_step (env : Env) (query : String) (scrapers : List Nat) (st : Shared)
    (g : Nat) (hS : Settled env query scrapers st) :
    (Settled env query scrapers (stepGo env query scrapers st g) ∧
      ∀ v, (stepGo env query scrapers st g).gs g ≠ .loaded v) ∨
    ((∃ v, (stepGo env query scrapers st g).gs g = .loaded v) ∧
      Settled env query scrapers
        (stepGo env query scrapers (stepGo env query scrapers st g) g)) := by
  cases hs : scrapers[g]? with
  | none =>
    left
    rw [stepGo_none env query scrapers st g hs]
    refine ⟨hS, ?_⟩
    intro v hv
    rw [hS.idle g hs] at hv
    cases hv
  | some s =>
    rcases hS.states g s hs with hg | hg | hg | hg
    · left
      rw [stepGo_ready_eq env query scrapers st g s hs hg]
      exact ⟨settled_search env query scrapers st g s _ hS hs hg, by simp⟩
    · cases hr : env.SearchManga s query with
      | error e =>
        left
        rw [hr] at hg
        rw [stepGo_error_eq env query scrapers st g s e hs hg]
        exact ⟨settled_return env query scrapers st g s _ hS hs (Or.inr ⟨e, hg, hr⟩),
          by simp⟩
      | ok m =>
        right
        rw [hr] at hg
        refine ⟨⟨st.manga ++ m, ?_⟩, ?_⟩
        · rw [stepGo_ok_eq env query scrapers st g s m hs hg]
          simp
        · rw [stepGo_append_eq env query scrapers st g s m hs hg]
          exact settled_store env query scrapers st g s m _ hS hs hg hr
    · left
      rw [stepGo_stored_eq env query scrapers st g s hs hg]
      exact ⟨settled_return env query scrapers st g s _ hS hs (Or.inl hg), by simp⟩
    · left
      rw [stepGo_done env query scrapers st g hg]
      refine ⟨hS, ?_⟩
      intro v hv
      rw [hg] at hv
      cases hv

/-- With atomic appends the invariant holds after every schedule. -/
theorem foldl_stepGo_settled (env : Env) (query : String) (scrapers : List Nat)
    (sched : List Nat) (st : Shared)
    (hS : Settled env query scrapers st ∨
      ∃ g v, sched.head? = some g ∧ st.gs g = .loaded v ∧
        Settled env query scrapers (stepGo env query scrapers st g))
    (hat : appendsAtomic env query scrapers st sched = true) :
    Settled env query scrapers (sched.foldl (stepGo env query scrapers) st) := by
  induction sched generalizing st with
  | nil =>
    rcases hS with hS | ⟨g, v, hhead, -, -⟩
    · exact hS
    · cases hhead
  | cons g rest ih =>
    rw [List.foldl_cons]
    unfold appendsAtomic at hat
    rw [Bool.and_eq_true] at hat
    rcases hS with hS | ⟨g2, v, hhead, hl, hS2⟩
    · rcases settled_step env query scrapers st g hS with ⟨hS1, -⟩ | ⟨⟨v, hv⟩, hS1⟩
      · exact ih _ (Or.inl hS1) hat.2
      · have hnext := hat.1
        rw [hv] at hnext
        simp only [beq_iff_eq] at hnext
        exact ih _ (Or.inr ⟨g, v, hnext, hv, hS1⟩) hat.2
    · simp only [List.head?_cons, Option.some.injEq] at hhead
      subst hhead
      exact ih _ (Or.inl hS2) hat.2

/-- A goroutine that has the result of its search in hand, run on without
interruption, keeps the invariant and returns within three steps. -/
theorem settled_from_searched (env : Env) (query : String) (scrapers : List Nat)
    (st : Shared) (g s : Nat) (hS : Settled env query scrapers st)
    (hs : scrapers[g]? = some s) (hg : st.gs g = .searched (env.SearchManga s query)) :
    Settled env query scrapers
        (stepGo env query scrapers
          (stepGo env query scrapers (stepGo env query scrapers st g) g) g) ∧
      (stepGo env query scrapers
        (stepGo env query scrapers (stepGo env query scrapers st g) g) g).gs g = .done := by
  cases hr : env.SearchManga s query with
  | error e =>
    rw [hr] at hg
    have h1 := stepGo_error_eq env query scrapers st g s e hs hg
    have hd : (stepGo env query scrapers st g).gs g = .done := by
      rw [h1]
      simp
    rw [stepGo_done env query scrapers _ g hd, stepGo_done env query scrapers _ g hd]
    refine ⟨?_, hd⟩
    rw [h1]
    exact settled_return env query scrapers st g s _ hS hs (Or.inr ⟨e, hg, hr⟩)
  | ok m =>
    rw [hr] at hg
    rw [stepGo_append_eq env query scrapers st g s m hs hg]
    have hS2 := settled_store env query scrapers st g s m st.trace hS hs hg hr
    rw [stepGo_stored_eq env query scrapers _ g s hs (by simp)]
    exact ⟨settled_return env query scrapers _ g s _ hS2 hs (Or.inl (by simp)), by simp⟩

/-- At `wg.Wait()` a goroutine run to its return keeps the invariant and has
returned. -/
theorem finishGo_settled (env : Env) (query : String) (scrapers : List Nat) (st : Shared)
    (g : Nat) (hS : Settled env query scrapers st) :
    Settled env query scrapers (finishGo env query scrapers st g) ∧
      (g < scrapers.length → (finishGo env query scrapers st g).gs g = .done) := by
  cases hs : scrapers[g]? with
  | none =>
    rw [finishGo_none env query scrapers st g hs]
    refine ⟨hS, ?_⟩
    intro hlt
    rw [List.getElem?_eq_getElem hlt] at hs
    cases hs
  | some s =>
    rcases hS.states g s hs with hg | hg | hg | hg
    · have h1 := stepGo_ready_eq env query scrapers st g s hs hg
      have hS1 := settled_search env query scrapers st g s
        (st.trace ++ [.searchManga s query]) hS hs hg
      rw [← h1] at hS1
      have hg1 : (stepGo env query scrapers st g).gs g =
          .searched (env.SearchManga s query) := by
        rw [h1]
        simp
      obtain ⟨h2, h3⟩ := settled_from_searched env query scrapers _ g s hS1 hs hg1
      exact ⟨h2, fun _ => h3⟩
    · obtain ⟨h2, h3⟩ := settled_from_searched env query scrapers st g s hS hs hg
      unfold finishGo
      rw [stepGo_done env query scrapers _ g h3]
      exact ⟨h2, fun _ => h3⟩
    · have h1 := stepGo_stored_eq env query scrapers st g s hs hg
      have hd : (stepGo env query scrapers st g).gs g = .done := by
        rw [h1]
        simp
      unfold finishGo
      rw [stepGo_done env query scrapers _ g hd, stepGo_done env query scrapers _ g hd,
        stepGo_done env query scrapers _ g hd]
      refine ⟨?_, fun _ => hd⟩
      rw [h1]
      exact settled_return env query scrapers st g s _ hS hs (Or.inl hg)
    · rw [finishGo_done env query scrapers st g hg]
      exact ⟨hS, fun _ => hg⟩

theorem foldl_finishGo_gs_done (env : Env) (query : String) (scrapers : List Nat)
    (gs : List Nat) (st : Shared) (g : Nat) (hg : st.gs g = .done) :
    (gs.foldl (finishGo env query scrapers) st).gs g = .done := by
  induction gs generalizing st with
  | nil => exact hg
  | cons h rest ih => exact ih _ (finishGo_gs_done env query scrapers st g h hg)

theorem foldl_finishGo_settled (env : Env) (query : String) (scrapers : List Nat)
    (gs : List Nat) (st : Shared) (hS : Settled env query scrapers st) :
    Settled env query scrapers (gs.foldl (finishGo env query scrapers) st) ∧
      (∀ g ∈ gs, g < scrapers.length →
        (gs.foldl (finishGo env query scrapers) st).gs g = .done) := by
  induction gs generalizing st with
  | nil => exact ⟨hS, by simp⟩
  | cons g rest ih =>
    obtain ⟨h1, h2⟩ := finishGo_settled env query scrapers st g hS
    obtain ⟨i1, i2⟩ := ih _ h1
    rw [List.foldl_cons]
    refine ⟨i1, ?_⟩
    intro h hh hlt
    rcases List.mem_cons.mp hh with rfl | hh
    · exact foldl_finishGo_gs_done env query scrapers rest _ _ (h2 hlt)
    · exact i2 h hh hlt

/-- The goroutines that do not append contribute nothing to the
concatenation. -/
theorem mergeInOrder_filter_succeeds (env : Env) (query : String) (scrapers : List Nat)
    (l : List Nat) :
    mergeInOrder env query (scrapersAt scrapers (l.filter (succeeds env query scrapers))) =
      mergeInOrder env query (scrapersAt scrapers l) := by
  induction l with
  | nil => rfl
  | cons g rest ih =>
    cases hs : scrapers[g]? with
    | none =>
      have hf : succeeds env query scrapers g = false := by simp [succeeds, hs]
      rw [List.filter_cons_of_neg (by simp [hf]), ih]
      simp [scrapersAt, List.filterMap_cons, hs]
    | some s =>
      cases hr : env.SearchManga s query with
      | error e =>
        have hf := succeeds_of_error env query scrapers g s e hs hr
        have hc : contribution env query s = [] := by
          unfold contribution
          rw [hr]
        rw [List.filter_cons_of_neg (by simp [hf]), ih]
        simp [scrapersAt, mergeInOrder, List.filterMap_cons, hs, hc]
      | ok m =>
        have hf := succeeds_of_ok env query scrapers g s m hs hr
        rw [List.filter_cons_of_pos hf]
        simp only [scrapersAt, mergeInOrder, List.filterMap_cons, hs, List.flatMap_cons]
          at ih ⊢
        rw [ih]

/-- With atomic appends, after the join: `manga` is the concatenation of the
contributions in the order of the appends, the goroutines that have appended
are those with a successful search, each once, and every goroutine has
returned, once. -/
theorem searchAll_settled (env : Env) (query : String) (scrapers : List Nat)
    (sched : List Nat) (hat : appendsAtomic env query scrapers Shared.init sched = true) :
    (searchAll env query scrapers sched).manga =
        mergeInOrder env query
          (scrapersAt scrapers (searchAll env query scrapers sched).appended) ∧
      (searchAll env query scrapers sched).appended.Perm
        ((List.range scrapers.length).filter (succeeds env query scrapers)) ∧
      (searchAll env query scrapers sched).finished.Perm (List.range scrapers.length) := by
  have h1 := foldl_stepGo_settled env query scrapers sched Shared.init
    (Or.inl (settled_init env query scrapers)) hat
  obtain ⟨h2, h3⟩ := foldl_finishGo_settled env query scrapers
    (List.range scrapers.length) _ h1
  refine ⟨h2.manga_eq, ?_, ?_⟩
  · unfold searchAll
    rw [List.perm_ext_iff_of_nodup h2.appended_nodup
      ((List.nodup_range _).filter _)]
    intro g
    rw [h2.appended_iff g, List.mem_filter, List.mem_range]
    constructor
    · rintro ⟨hsucc, -⟩
      exact ⟨succeeds_lt env query scrapers g hsucc, hsucc⟩
    · rintro ⟨hlt, hsucc⟩
      exact ⟨hsucc, Or.inr (h3 g (List.mem_range.mpr hlt) hlt)⟩
  · unfold searchAll
    rw [List.perm_ext_iff_of_nodup h2.finished_nodup (List.nodup_range _)]
    intro g
    rw [h2.done_iff g, List.mem_range]
    constructor
    · intro hd
      exact h2.bound g ((h2.done_iff g).mpr hd)
    · intro hlt
      exact h3 g (List.mem_range.mpr hlt) hlt

/-- With atomic appends the merged list is a rearrangement of the
registration-order concatenation. -/
theorem searchAll_perm (env : Env) (query : String) (scrapers : List Nat)
    (sched : List Nat) (hat : appendsAtomic env query scrapers Shared.init sched = true) :
    (searchAll env query scrapers sched).manga.Perm (mergeInOrder env query scrapers) := by
  obtain ⟨hm, hp, -⟩ := searchAll_settled env query scrapers sched hat
  rw [hm]
  have h1 : (mergeInOrder env query
      (scrapersAt scrapers (searchAll env query scrapers sched).appended)).Perm
      (mergeInOrder env query (scrapersAt scrapers
        ((List.range scrapers.length).filter (succeeds env query scrapers)))) :=
    List.Perm.flatMap_right _ (List.Perm.filterMap _ hp)
  rw [mergeInOrder_filter_succeeds, scrapersAt_range] at h1
  exact h1

/-- Every order of the goroutines is the order of some run with atomic
appends: the run in which the goroutines run one after the other in that
order. -/
theorem searchAll_atomicSchedule (env : Env) (query : String) (scrapers : List Nat)
    (order : List Nat) (h : order.Perm (List.range scrapers.length)) :
    (searchAll env query scrapers (atomicSchedule order)).appended =
        order.filter (succeeds env query scrapers) ∧
      (searchAll env query scrapers (atomicSchedule order)).finished = order ∧
      (searchAll env query scrapers (atomicSchedule order)).manga =
        mergeInOrder env query (scrapersAt scrapers order) ∧
      (searchAll env query scrapers (atomicSchedule order)).trace =
        (scrapersAt scrapers order).map (fun s => .searchManga s query) := by
  have hnodup : order.Nodup := h.nodup_iff.mpr (List.nodup_range _)
  have hlt : ∀ g ∈ order, g < scrapers.length :=
    fun g hg => List.mem_range.mp (h.mem_iff.mp hg)
  obtain ⟨h1, h2, h5, h3, h4, -⟩ := foldl_finishGo_ready env query scrapers order Shared.init
    (fun _ _ => rfl) hnodup hlt
  have hdone : ∀ g ∈ List.range scrapers.length,
      (order.foldl (finishGo env query scrapers) Shared.init).gs g = .done :=
    fun g hg => h4 g (h.mem_iff.mpr hg)
  unfold searchAll
  rw [foldl_atomicSchedule, foldl_finishGo_done env query scrapers _ _ hdone, h1, h2, h3, h5]
  simp [Shared.init]

theorem mergeInOrder_length (env : Env) (query : String) (l : List Nat) :
    (mergeInOrder env query l).length =
      (l.map (fun s => (contribution env query s).length)).sum := by
  induction l with
  | nil => rfl
  | cons s rest ih =>
    simp only [mergeInOrder, List.flatMap_cons, List.length_append, List.map_cons,
      List.sum_cons] at ih ⊢
    rw [ih]

theorem mergeInOrder_all_fail (env : Env) (query : String) (l : List Nat)
    (h : ∀ s ∈ l, ∃ e, env.SearchManga s query = .error e) : mergeInOrder env query l = [] := by
  induction l with
  | nil => rfl
  | cons s rest ih =>
    obtain ⟨e, he⟩ := h s (List.mem_cons_self _ _)
    have hc : contribution env query s = [] := by
      unfold contribution
      rw [he]
    simp only [mergeInOrder, List.flatMap_cons] at ih ⊢
    rw [hc, ih (fun s2 hs2 => h s2 (List.mem_cons_of_mem _ hs2))]
    rfl

/-- A goroutine that runs from its start to its return without interruption
appends atomically. -/
theorem appendsAtomic_block (env : Env) (query : String) (scrapers : List Nat) (st : Shared)
    (g : Nat) (rest : List Nat) (hg : st.gs g = .ready) :
    appendsAtomic env query scrapers st (g :: g :: g :: g :: rest) =
      appendsAtomic env query scrapers (finishGo env query scrapers st g) rest := by
  cases hs : scrapers[g]? with
  | none => simp [appendsAtomic, finishGo, stepGo, hs, hg]
  | some s =>
    cases hr : env.SearchManga s query <;>
      simp [appendsAtomic, finishGo, stepGo, hs, hg, hr, Function.update_same]

/-- In the run in which the goroutines run one after the other, every append
is atomic. -/
theorem appendsAtomic_atomicSchedule (env : Env) (query : String) (scrapers : List Nat)
    (order : List Nat) (st : Shared) (hready : ∀ g ∈ order, st.gs g = .ready)
    (hnodup : order.Nodup) (hlt : ∀ g ∈ order, g < scrapers.length) :
    appendsAtomic env query scrapers st (atomicSchedule order) = true := by
  induction order generalizing st with
  | nil => rfl
  | cons g rest ih =>
    have hnd := List.nodup_cons.mp hnodup
    have hg : g < scrapers.length := hlt g (List.mem_cons_self _ _)
    have hs : scrapers[g]? = some scrapers[g] := List.getElem?_eq_getElem hg
    have hblock := appendsAtomic_block env query scrapers st g (atomicSchedule rest)
      (hready g (List.mem_cons_self _ _))
    simp only [atomicSchedule, List.flatMap_cons, List.cons_append, List.nil_append]
      at hblock ⊢
    rw [hblock]
    apply ih
    · intro h hh
      rw [finishGo_ready env query scrapers st g _ hs (hready g (List.mem_cons_self _ _))]
      have hne : h ≠ g := fun e => hnd.1 (e ▸ hh)
      simp only
      rw [Function.update_noteq hne]
      exact hready h (List.mem_cons_of_mem _ hh)
    · exact hnd.2
    · exact fun h hh => hlt h (List.mem_cons_of_mem _ hh)

/-- The listing of the merged results prints one entry for each result, in
the order of the list, numbered from 1. -/
theorem listManga_entries (env : Env) (f : Flags) (manga : List URL) (hj : f.json = false) :
    listManga env f manga =
      ⟨manga.enum.map (fun im =>
          .printEntry ((im.1 : Int) + 1) im.2.Info
            (if f.urls then some im.2.Address else none)),
        .returned, f.temp⟩ := by
  unfold listManga
  rw [if_neg (by simp [hj])]
  congr 1
  apply List.map_congr_left
  intro im _
  split <;> rfl

/-! ## The steps after the join: lemmas -/

theorem after_trace (es : List Event) (b : Body) : (b.after es).trace = es ++ b.trace := rfl

theorem after_exit (es : List Event) (b : Body) : (b.after es).exit = b.exit := rfl

theorem after_asTemp (es : List Event) (b : Body) : (b.after es).asTemp = b.asTemp := rfl

theorem deliver_exit (cfg : Config) (f : Flags) (p : String) (t : Bool) :
    (deliver cfg f p t).exit = .returned := by
  unfold deliver
  split
  · split <;> rfl
  · rfl

theorem deliver_asTemp (cfg : Config) (f : Flags) (p : String) (t : Bool) :
    (deliver cfg f p t).asTemp = t := by
  unfold deliver
  split
  · split <;> rfl
  · rfl

theorem packageAndDeliver_exit (env : Env) (cfg : Config) (f : Flags) (sel : URL)
    (p : String) (t : Bool) :
    (packageAndDeliver env cfg f sel p t).exit = .returned ∨
      (packageAndDeliver env cfg f sel p t).exit = .fatal "Error while making epub file" := by
  unfold packageAndDeliver
  split
  · exact Or.inl (deliver_exit _ _ _ _)
  · simp only
    split
    · exact Or.inr rfl
    · exact Or.inl (by rw [after_exit, deliver_exit])

theorem chapterBranch_exit (env : Env) (cfg : Config) (f : Flags) (sel : URL)
    (chapters : List URL) : (chapterBranch env cfg f sel chapters).exit ≠ .panicked := by
  unfold chapterBranch
  split
  · simp
  · simp only
    split
    · simp
    · rw [after_exit]
      rcases packageAndDeliver_exit env cfg f sel _ (if f.read = true then true else f.temp)
        with h | h <;> rw [h] <;> simp

theorem listChapters_exit (env : Env) (f : Flags) (chapters : List URL) :
    (listChapters env f chapters).exit ≠ .panicked := by
  unfold listChapters
  split
  · split <;> simp
  · simp

theorem listManga_exit (env : Env) (f : Flags) (manga : List URL) :
    (listManga env f manga).exit ≠ .panicked := by
  unfold listManga
  split
  · split <;> simp
  · simp

theorem sliceIndex_in_range {α : Type} (xs : List α) (i : Int) (k : Nat)
    (hk : k < xs.length) (hi : (k : Int) + 1 = i) : sliceIndex xs (i - 1) = some xs[k] := by
  unfold sliceIndex
  have h0 : (0 : Int) ≤ i - 1 := by omega
  have hk2 : (i - 1).toNat = k := by omega
  rw [if_pos h0, hk2]
  exact List.getElem?_eq_getElem hk

theorem selectManga_in_range (f : Flags) (manga : List URL) (k : Nat)
    (hk : k < manga.length) (hi : (k : Int) + 1 = f.manga) :
    selectManga f manga = .ok manga[k] := by
  unfold selectManga
  have hguard : ¬ (f.manga > (manga.length : Int) ∨ f.manga ≤ 0) := by omega
  rw [if_neg hguard, sliceIndex_in_range manga f.manga k hk hi]

theorem selectManga_out_of_range (f : Flags) (manga : List URL)
    (h : f.manga ≤ 0 ∨ f.manga > (manga.length : Int)) :
    selectManga f manga = .error (.fatal "Index out of range") := by
  unfold selectManga
  have hguard : f.manga > (manga.length : Int) ∨ f.manga ≤ 0 := by omega
  rw [if_pos hguard]

theorem Find_eq_find? {α : Type} (list : List α) (f : α → Bool) :
    Find list f = list.find? f := by
  induction list with
  | nil => rfl
  | cons el rest ih =>
    unfold Find
    rw [List.find?_cons]
    cases h : f el <;> simp [ih]

theorem Find_none {α : Type} (list : List α) (f : α → Bool)
    (h : ∀ el ∈ list, f el = false) : Find list f = none := by
  rw [Find_eq_find?, List.find?_eq_none]
  intro el hel
  simp [h el hel]

/-- A listing of the merged results calls neither a scraper nor the
downloader nor the packager. -/
theorem listManga_trace (env : Env) (f : Flags) (manga : List URL) :
    ∀ e ∈ (listManga env f manga).trace,
      e.isGetChapters = false ∧ e.isDownload = false ∧ e.isPackager = false := by
  unfold listManga
  split
  · split
    · simp
    · intro e he
      simp only [List.mem_singleton] at he
      subst he
      exact ⟨rfl, rfl, rfl⟩
  · intro e he
    simp only [List.mem_map] at he
    obtain ⟨im, -, rfl⟩ := he
    split <;> exact ⟨rfl, rfl, rfl⟩

/-- A listing of the chapters calls neither a scraper nor the downloader nor
the packager. -/
theorem listChapters_trace (env : Env) (f : Flags) (chapters : List URL) :
    ∀ e ∈ (listChapters env f chapters).trace,
      e.isGetChapters = false ∧ e.isDownload = false ∧ e.isPackager = false := by
  unfold listChapters
  split
  · split
    · simp
    · intro e he
      simp only [List.mem_singleton] at he
      subst he
      exact ⟨rfl, rfl, rfl⟩
  · intro e he
    simp only [List.mem_map] at he
    obtain ⟨c, -, rfl⟩ := he
    split <;> exact ⟨rfl, rfl, rfl⟩

/-- The command from line 139 on, when a manga is selected and its chapters
are obtained. -/
theorem afterSearch_selected (env : Env) (cfg : Config) (f : Flags) (manga : List URL)
    (sel : URL) (chapters : List URL) (hne : f.manga ≠ -1)
    (hsel : selectManga f manga = .ok sel)
    (hch : env.GetChapters sel.Scraper sel = .ok chapters) :
    afterSearch env cfg f manga =
      (if f.chapter ≠ -1 then chapterBranch env cfg f sel chapters
        else listChapters env f chapters).after [.getChapters sel.Scraper sel] := by
  unfold afterSearch
  rw [if_pos hne, hsel]
  simp only
  rw [hch]

theorem asTemp_eq (f : Flags) : (if f.read = true then true else f.temp) = (f.temp || f.read) := by
  cases f.read <;> cases f.temp <;> rfl

/-- The command from line 139 on follows one of the paths of `RunsAs`. -/
theorem afterSearch_runsAs (env : Env) (cfg : Config) (f : Flags) (manga : List URL) :
    RunsAs env cfg f manga (afterSearch env cfg f manga) := by
  by_cases hm : f.manga = -1
  · have h : afterSearch env cfg f manga = listManga env f manga := by
      unfold afterSearch
      rw [if_neg (by simp [hm])]
    rw [h]
    exact .mangaListed hm
  · by_cases hr : f.manga ≤ 0 ∨ f.manga > (manga.length : Int)
    · have h : afterSearch env cfg f manga = ⟨[], .fatal "Index out of range", f.temp⟩ := by
        unfold afterSearch
        rw [if_pos hm, selectManga_out_of_range f manga hr]
      rw [h]
      exact .mangaOutOfRange hm hr
    · have hk : (f.manga - 1).toNat < manga.length := by omega
      have hi : (((f.manga - 1).toNat : Nat) : Int) + 1 = f.manga := by omega
      have hsel := selectManga_in_range f manga _ hk hi
      generalize manga[(f.manga - 1).toNat] = sel at hsel
      cases hch : env.GetChapters sel.Scraper sel with
      | error err =>
        have h : afterSearch env cfg f manga =
            ⟨[.getChapters sel.Scraper sel], .fatal "Error while getting chapters", f.temp⟩ := by
          unfold afterSearch
          rw [if_pos hm, hsel]
          simp only
          rw [hch]
        rw [h]
        exact .chaptersFailed sel err hm hsel hch
      | ok chapters =>
        rw [afterSearch_selected env cfg f manga sel chapters hm hsel hch]
        by_cases hc : f.chapter = -1
        · rw [if_neg (by simp [hc])]
          exact .chaptersListed sel chapters hm hsel hch hc
        · rw [if_pos hc]
          unfold chapterBranch
          cases hfind : Find chapters (fun c => c.Index == f.chapter) with
          | none => exact .chapterOutOfRange sel chapters hm hsel hch hc hfind
          | some ch =>
            simp only [asTemp_eq]
            cases hdl : env.DownloadChapter ch (f.temp || f.read) with
            | error err => exact .fetchFailed sel chapters ch err hm hsel hch hc hfind hdl
            | ok p =>
              simp only
              unfold packageAndDeliver
              cases hepub : env.EpubFile with
              | none =>
                have : RunsAs env cfg f manga _ :=
                  .fetched sel chapters ch p hm hsel hch hc hfind hdl hepub
                simpa [Body.after, deliver_exit, deliver_asTemp] using this
              | some write =>
                simp only
                cases hw : write (env.SourceBase sel.Scraper) p with
                | some err =>
                  exact .packageFailed sel chapters ch p write err hm hsel hch hc hfind hdl
                    hepub hw
                | none =>
                  have : RunsAs env cfg f manga _ :=
                    .packaged sel chapters ch p write hm hsel hch hc hfind hdl hepub hw
                  simpa [Body.after, deliver_exit, deliver_asTemp] using this

/-- What `deliver` does is one delivery to the caller, the printing of the
path unless `--read` is given. -/
theorem deliver_trace (cfg : Config) (f : Flags) (p : String) (t : Bool) :
    ∃ e, (deliver cfg f p t).trace = [e] ∧ e.isDelivery = true ∧
      (f.read = false → e = .println p) ∧ (f.read = true → e ≠ .println p) := by
  unfold deliver
  split
  · split
    · exact ⟨_, rfl, rfl, by simp_all, by simp⟩
    · exact ⟨_, rfl, rfl, by simp_all, by simp⟩
  · exact ⟨_, rfl, rfl, by simp, by simp_all⟩

theorem isSearch_not_others (e : Event) (h : e.isSearch = true) :
    e.isGetChapters = false ∧ e.isDownload = false ∧ e.isPackager = false ∧
      e.isDelivery = false ∧ e ≠ .removeTemp := by
  cases e <;> simp_all [Event.isSearch, Event.isGetChapters, Event.isDownload,
    Event.isPackager, Event.isDelivery]

/-! ## The whole command: lemmas -/

theorem inlineBody_config_error (env : Env) (f : Flags) (sched : List Nat) (e : String)
    (hcfg : loadConfig env f = .error e) : inlineBody env f sched = ⟨[], .fatal e, f.temp⟩ := by
  unfold inlineBody
  rw [hcfg]

theorem inlineBody_empty_query (env : Env) (f : Flags) (sched : List Nat) (cfg : Config)
    (hcfg : loadConfig env f = .ok cfg) (hq : f.query = "") :
    inlineBody env f sched = ⟨[], .fatal "Query expected", f.temp⟩ := by
  unfold inlineBody
  rw [hcfg]
  simp only
  rw [if_pos hq]

/-- With a configuration that loads and validates and a query that is not
empty, the command is the search fan-out followed by the steps from line 139
on. -/
theorem inlineBody_reached (env : Env) (f : Flags) (sched : List Nat) (cfg : Config)
    (hcfg : loadConfig env f = .ok cfg) (hq : f.query ≠ "") :
    inlineBody env f sched =
      (afterSearch env cfg f (searchAll env f.query cfg.Scrapers sched).manga).after
        (searchAll env f.query cfg.Scrapers sched).trace := by
  unfold inlineBody
  rw [hcfg]
  simp only
  rw [if_neg hq]

/-- Every run of the command stops at the configuration, stops at the empty
query, or searches and follows one of the paths of `RunsAs`. -/
theorem Run_cases (env : Env) (f : Flags) (sched : List Nat) :
    (∃ e, loadConfig env f = .error e ∧ Run env f sched = ⟨[], .fatal e⟩) ∨
    (∃ cfg, loadConfig env f = .ok cfg ∧ f.query = "" ∧
      Run env f sched = ⟨[], .fatal "Query expected"⟩) ∨
    (∃ cfg b, loadConfig env f = .ok cfg ∧ f.query ≠ "" ∧
      RunsAs env cfg f (searchAll env f.query cfg.Scrapers sched).manga b ∧
      Run env f sched = runDeferred (b.after (searchAll env f.query cfg.Scrapers sched).trace)) := by
  cases hcfg : loadConfig env f with
  | error e =>
    left
    exact ⟨e, rfl, by rw [Run, inlineBody_config_error env f sched e hcfg]; rfl⟩
  | ok cfg =>
    right
    by_cases hq : f.query = ""
    · left
      exact ⟨cfg, rfl, hq, by rw [Run, inlineBody_empty_query env f sched cfg hcfg hq]; rfl⟩
    · right
      exact ⟨cfg, _, rfl, hq, afterSearch_runsAs env cfg f _,
        by rw [Run, inlineBody_reached env f sched cfg hcfg hq]⟩

theorem runDeferred_exit (b : Body) : (runDeferred b).exit = b.exit := by
  unfold runDeferred
  split <;> simp_all

theorem runDeferred_trace_fatal (b : Body) (msg : String) (h : b.exit = .fatal msg) :
    (runDeferred b).trace = b.trace := by
  unfold runDeferred
  split <;> simp_all

theorem runDeferred_trace_returned (b : Body) (h : b.exit = .returned) :
    (runDeferred b).trace = if b.asTemp then b.trace else b.trace ++ [.removeTemp] := by
  unfold runDeferred
  split
  · simp_all
  · cases b.asTemp <;> simp

/-- The events of a run other than the calls of `SearchManga` and the temp
sweep are those of the steps from line 139 on. -/
theorem mem_runDeferred_after (b : Body) (st : List Event) (e : Event)
    (hst : ∀ x ∈ st, x.isSearch = true) (hs : e.isSearch = false) (hr : e ≠ .removeTemp) :
    e ∈ (runDeferred (b.after st)).trace ↔ e ∈ b.trace := by
  have hnot : e ∉ st := fun h => by simp [hst e h] at hs
  unfold runDeferred
  split <;> [skip; split] <;> simp [Body.after, hnot, hr]

/-- The events of a run that reaches the search: those of the search, those
of the steps from line 139 on, and the temp sweep, which is there exactly
when the command does not stop with `log.Fatal` and `asTemp` is false. -/
theorem runDeferred_after_shape (b : Body) (st : List Event) :
    ∃ tail, (runDeferred (b.after st)).trace = st ++ b.trace ++ tail ∧
      (runDeferred (b.after st)).exit = b.exit ∧
      (tail = [] ∨ tail = [.removeTemp]) ∧
      (tail = [.removeTemp] ↔ (b.asTemp = false ∧ ∀ msg, b.exit ≠ .fatal msg)) := by
  obtain ⟨tr, ex, t⟩ := b
  cases ex with
  | fatal msg => exact ⟨[], by simp [runDeferred, Body.after], rfl, Or.inl rfl, by simp⟩
  | returned =>
    cases t
    · exact ⟨[.removeTemp], by simp [runDeferred, Body.after], rfl, Or.inr rfl, by simp⟩
    · exact ⟨[], by simp [runDeferred, Body.after], rfl, Or.inl rfl, by simp⟩
  | panicked =>
    cases t
    · exact ⟨[.removeTemp], by simp [runDeferred, Body.after], rfl, Or.inr rfl, by simp⟩
    · exact ⟨[], by simp [runDeferred, Body.after], rfl, Or.inl rfl, by simp⟩

/-- The facts about the downloader and the packager on each path from line
139 on. -/
theorem RunsAs.fetch_and_package {env : Env} {cfg : Config} {f : Flags} {manga : List URL}
    {b : Body} (h : RunsAs env cfg f manga b) :
    (b.trace.filter Event.isDownload).length ≤ 1 ∧
    ((∃ e ∈ b.trace, e.isPackager = true) →
      ∃ post sel ch t p,
        b.trace = [.getChapters sel.Scraper sel, .downloadChapter ch t,
            .setAuthor (env.SourceBase sel.Scraper), .epubWrite p] ++ post ∧
        env.DownloadChapter ch t = .ok p ∧ selectManga f manga = .ok sel ∧
        (∀ e ∈ post, e.isPackager = false ∧ e.isDownload = false ∧ e.isDelivery = true)) ∧
    (∀ ch t err, Event.downloadChapter ch t ∈ b.trace →
      env.DownloadChapter ch t = .error err →
      b.exit = .fatal "Error while downloading chapter" ∧
      (∀ e ∈ b.trace, e.isPackager = false ∧ e.isDelivery = false)) := by
  cases h with
  | mangaListed hm =>
    have hl := listManga_trace env f manga
    refine ⟨?_, ?_, ?_⟩
    · rw [List.filter_eq_nil_iff.mpr (fun e he => by simp [(hl e he).2.1])]
      simp
    · rintro ⟨e, he, hp⟩
      simp [(hl e he).2.2] at hp
    · intro ch t err hmem
      simpa [Event.isDownload] using (hl _ hmem).2.1
  | mangaOutOfRange hm hr => simp
  | chaptersFailed sel err hm hsel hch => simp [Event.isDownload, Event.isPackager]
  | chaptersListed sel chapters hm hsel hch hc =>
    have hl := listChapters_trace env f chapters
    refine ⟨?_, ?_, ?_⟩
    · have hnil : (listChapters env f chapters).trace.filter Event.isDownload = [] :=
        List.filter_eq_nil_iff.mpr (fun e he => by simp [(hl e he).2.1])
      rw [after_trace, List.filter_append, hnil]
      simp [List.filter, Event.isDownload]
    · rintro ⟨e, he, hp⟩
      rw [after_trace] at he
      simp only [List.singleton_append, List.mem_cons] at he
      rcases he with rfl | he
      · simp [Event.isPackager] at hp
      · simp [(hl e he).2.2] at hp
    · intro ch t err hmem
      rw [after_trace] at hmem
      simp only [List.singleton_append, List.mem_cons, reduceCtorEq, false_or] at hmem
      simpa [Event.isDownload] using (hl _ hmem).2.1
  | chapterOutOfRange sel chapters hm hsel hch hc hfind =>
    simp [Event.isDownload, Event.isPackager]
  | fetchFailed sel chapters ch err hm hsel hch hc hfind hdl =>
    simp [Event.isDownload, Event.isPackager, Event.isDelivery]
  | fetched sel chapters ch p hm hsel hch hc hfind hdl hepub =>
    obtain ⟨d, hd, hdel, -, -⟩ := deliver_trace cfg f p (f.temp || f.read)
    have hdD : d.isDownload = false := by cases d <;> simp_all [Event.isDelivery, Event.isDownload]
    have hdP : d.isPackager = false := by cases d <;> simp_all [Event.isDelivery, Event.isPackager]
    have e1 : Event.isDownload (.getChapters sel.Scraper sel) = false := rfl
    have e2 : Event.isDownload (.downloadChapter ch (f.temp || f.read)) = true := rfl
    simp only [hd]
    refine ⟨by simp [List.filter_cons, e1, e2, hdD], ?_, ?_⟩
    · rintro ⟨e, he, hp⟩
      simp only [List.cons_append, List.nil_append, List.mem_cons, List.mem_nil_iff,
        or_false] at he
      rcases he with rfl | rfl | rfl
      · simp [Event.isPackager] at hp
      · simp [Event.isPackager] at hp
      · simp [hdP] at hp
    · intro ch2 t err hmem herr
      simp only [List.cons_append, List.nil_append, List.mem_cons, reduceCtorEq,
        Event.downloadChapter.injEq, List.mem_nil_iff, or_false, false_or] at hmem
      rcases hmem with ⟨rfl, rfl⟩ | rfl
      · rw [hdl] at herr
        cases herr
      · simp [Event.isDownload] at hdD
  | packageFailed sel chapters ch p write err hm hsel hch hc hfind hdl hepub hw =>
    refine ⟨by simp [List.filter, Event.isDownload], ?_, ?_⟩
    · intro _
      exact ⟨[], sel, ch, _, p, rfl, hdl, hsel, by simp⟩
    · intro ch2 t err2 hmem herr
      simp only [List.mem_cons, reduceCtorEq, Event.downloadChapter.injEq, List.mem_nil_iff,
        or_false, false_or] at hmem
      obtain ⟨rfl, rfl⟩ := hmem
      rw [hdl] at herr
      cases herr
  | packaged sel chapters ch p write hm hsel hch hc hfind hdl hepub hw =>
    obtain ⟨d, hd, hdel, -, -⟩ := deliver_trace cfg f p (f.temp || f.read)
    have hdD : d.isDownload = false := by cases d <;> simp_all [Event.isDelivery, Event.isDownload]
    have hdP : d.isPackager = false := by cases d <;> simp_all [Event.isDelivery, Event.isPackager]
    have e1 : Event.isDownload (.getChapters sel.Scraper sel) = false := rfl
    have e2 : Event.isDownload (.downloadChapter ch (f.temp || f.read)) = true := rfl
    have e3 : Event.isDownload (.setAuthor (env.SourceBase sel.Scraper)) = false := rfl
    have e4 : Event.isDownload (.epubWrite p) = false := rfl
    simp only [hd]
    refine ⟨by simp [List.filter_cons, e1, e2, e3, e4, hdD], ?_, ?_⟩
    · intro _
      exact ⟨[d], sel, ch, _, p, rfl, hdl, hsel, by simp [hdD, hdP, hdel]⟩
    · intro ch2 t err hmem herr
      simp only [List.cons_append, List.nil_append, List.mem_cons, reduceCtorEq,
        Event.downloadChapter.injEq, List.mem_nil_iff, or_false, false_or] at hmem
      rcases hmem with ⟨rfl, rfl⟩ | rfl
      · rw [hdl] at herr
        cases herr
      · simp [Event.isDownload] at hdD

/-- The facts about the temporary mode on each path from line 139 on. -/
theorem RunsAs.temp_mode {env : Env} {cfg : Config} {f : Flags} {manga : List URL}
    {b : Body} (h : RunsAs env cfg f manga b) :
    (∀ ch t, Event.downloadChapter ch t ∈ b.trace → t = (f.temp || f.read)) ∧
    (b.exit = .returned →
      (b.asTemp = true ↔ (f.temp = true ∨ (f.read = true ∧ ∃ e ∈ b.trace, e.isDownload = true)))) ∧
    Event.removeTemp ∉ b.trace ∧ b.exit ≠ .panicked := by
  cases h with
  | mangaListed hm =>
    have hl := listManga_trace env f manga
    refine ⟨?_, ?_, ?_, listManga_exit env f manga⟩
    · intro ch t hmem
      exact absurd (hl _ hmem).2.1 (by simp [Event.isDownload])
    · intro _
      have ht : (listManga env f manga).asTemp = f.temp := by
        unfold listManga
        split
        · split <;> rfl
        · rfl
      rw [ht]
      constructor
      · exact Or.inl
      · rintro (h | ⟨-, e, he, hd⟩)
        · exact h
        · simp [(hl e he).2.1] at hd
    · intro hmem
      have := hl _ hmem
      unfold listManga at hmem
      split at hmem
      · split at hmem <;> simp at hmem
      · simp only [List.mem_map] at hmem
        obtain ⟨im, -, him⟩ := hmem
        split at him <;> cases him
  | mangaOutOfRange hm hr => simp
  | chaptersFailed sel err hm hsel hch => simp
  | chaptersListed sel chapters hm hsel hch hc =>
    have hl := listChapters_trace env f chapters
    have hmemc : ∀ e ∈ ((listChapters env f chapters).after [.getChapters sel.Scraper sel]).trace,
        e.isDownload = false ∧ e ≠ .removeTemp := by
      intro e he
      rw [after_trace] at he
      simp only [List.singleton_append, List.mem_cons] at he
      rcases he with rfl | he
      · exact ⟨rfl, by simp⟩
      · refine ⟨(hl e he).2.1, ?_⟩
        rintro rfl
        unfold listChapters at he
        split at he
        · split at he <;> simp at he
        · simp only [List.mem_map] at he
          obtain ⟨c, -, hc2⟩ := he
          split at hc2 <;> cases hc2
    refine ⟨?_, ?_, ?_, ?_⟩
    · intro ch t hmem
      exact absurd (hmemc _ hmem).1 (by simp [Event.isDownload])
    · intro _
      have ht : ((listChapters env f chapters).after [.getChapters sel.Scraper sel]).asTemp =
          f.temp := by
        rw [after_asTemp]
        unfold listChapters
        split
        · split <;> rfl
        · rfl
      rw [ht]
      constructor
      · exact Or.inl
      · rintro (h | ⟨-, e, he, hd⟩)
        · exact h
        · simp [(hmemc e he).1] at hd
    · intro hmem
      exact (hmemc _ hmem).2 rfl
    · rw [after_exit]
      exact listChapters_exit env f chapters
  | chapterOutOfRange sel chapters hm hsel hch hc hfind => simp
  | fetchFailed sel chapters ch err hm hsel hch hc hfind hdl => simp
  | fetched sel chapters ch p hm hsel hch hc hfind hdl hepub =>
    obtain ⟨d, hd, hdel, -, -⟩ := deliver_trace cfg f p (f.temp || f.read)
    have hdD : ∀ c t, d ≠ .downloadChapter c t := by
      intro c t hc2
      subst hc2
      simp [Event.isDelivery] at hdel
    have hdR : d ≠ .removeTemp := by
      intro hc2
      subst hc2
      simp [Event.isDelivery] at hdel
    simp only [hd]
    refine ⟨?_, ?_, ?_, by simp⟩
    · intro c t hmem
      simp only [List.cons_append, List.nil_append, List.mem_cons, reduceCtorEq,
        Event.downloadChapter.injEq, List.mem_nil_iff, or_false, false_or] at hmem
      rcases hmem with ⟨-, rfl⟩ | rfl
      · rfl
      · exact absurd rfl (hdD c t)
    · intro _
      have hex : ∃ e ∈ [Event.getChapters sel.Scraper sel,
          Event.downloadChapter ch (f.temp || f.read)] ++ [d], e.isDownload = true :=
        ⟨.downloadChapter ch (f.temp || f.read), by simp, rfl⟩
      constructor
      · intro h
        rcases Bool.or_eq_true _ _ ▸ h with h | h
        · exact Or.inl h
        · exact Or.inr ⟨h, hex⟩
      · rintro (h | ⟨h, -⟩) <;> simp [h]
    · simp [Ne.symm hdR]
  | packageFailed sel chapters ch p write err hm hsel hch hc hfind hdl hepub hw => simp
  | packaged sel chapters ch p write hm hsel hch hc hfind hdl hepub hw =>
    obtain ⟨d, hd, hdel, -, -⟩ := deliver_trace cfg f p (f.temp || f.read)
    have hdD : ∀ c t, d ≠ .downloadChapter c t := by
      intro c t hc2
      subst hc2
      simp [Event.isDelivery] at hdel
    have hdR : d ≠ .removeTemp := by
      intro hc2
      subst hc2
      simp [Event.isDelivery] at hdel
    simp only [hd]
    refine ⟨?_, ?_, ?_, by simp⟩
    · intro c t hmem
      simp only [List.cons_append, List.nil_append, List.mem_cons, reduceCtorEq,
        Event.downloadChapter.injEq, List.mem_nil_iff, or_false, false_or] at hmem
      rcases hmem with ⟨-, rfl⟩ | rfl
      · rfl
      · exact absurd rfl (hdD c t)
    · intro _
      have hex : ∃ e ∈ [Event.getChapters sel.Scraper sel,
          Event.downloadChapter ch (f.temp || f.read),
          Event.setAuthor (env.SourceBase sel.Scraper), Event.epubWrite p] ++ [d],
          e.isDownload = true :=
        ⟨.downloadChapter ch (f.temp || f.read), by simp, rfl⟩
      constructor
      · intro h
        rcases Bool.or_eq_true _ _ ▸ h with h | h
        · exact Or.inl h
        · exact Or.inr ⟨h, hex⟩
      · rintro (h | ⟨h, -⟩) <;> simp [h]
    · simp [Ne.symm hdR]

/-! ## C1: selection of the manga -/

/-- C1. For every merged list `manga` and every index `i` (the flag `manga`)
with `1 ≤ i ≤ len(manga)`: the index is not the "no index" value `-1`, the
guard of line 142 is passed, the slice access `manga[i-1]` of line 146 is in
bounds, the manga selected is the `i`-th element of the list counted from 1
(the element at position `k` with `k + 1 = i`), and the command goes on by
calling `GetChapters` of the scraper of that element on that element, without
panic. -/
theorem manga_selection_in_range (env : Env) (cfg : Config) (f : Flags) (manga : List URL)
    (h1 : 1 ≤ f.manga) (h2 : f.manga ≤ (manga.length : Int)) :
    ∃ (k : Nat) (hk : k < manga.length), (k : Int) + 1 = f.manga ∧
      f.manga ≠ -1 ∧
      ¬ (f.manga > (manga.length : Int) ∨ f.manga ≤ 0) ∧
      sliceIndex manga (f.manga - 1) = some manga[k] ∧
      selectManga f manga = .ok manga[k] ∧
      (afterSearch env cfg f manga).trace.head? =
        some (.getChapters manga[k].Scraper manga[k]) ∧
      (afterSearch env cfg f manga).exit ≠ .panicked := by
  have hk : (f.manga - 1).toNat < manga.length := by omega
  have hi : (((f.manga - 1).toNat : Nat) : Int) + 1 = f.manga := by omega
  have hne : f.manga ≠ -1 := by omega
  have hsel := selectManga_in_range f manga _ hk hi
  refine ⟨(f.manga - 1).toNat, hk, hi, hne, by omega,
    sliceIndex_in_range manga f.manga _ hk hi, hsel, ?_, ?_⟩
  · unfold afterSearch
    rw [if_pos hne, hsel]
    simp only
    split
    · rfl
    · rfl
  · unfold afterSearch
    rw [if_pos hne, hsel]
    simp only
    split
    · simp
    · rw [after_exit]
      split
      · exact chapterBranch_exit _ _ _ _ _
      · exact listChapters_exit _ _ _

/-- C1 at the list `[a1, a2, c1]` and the index 2: the second element is
selected. -/
theorem manga_selection_in_range_witness :
    (1 : Int) ≤ 2 ∧ (2 : Int) ≤ (([a1, a2, c1] : List URL).length : Int) ∧
      selectManga { demoFlags with manga := 2 } [a1, a2, c1] = .ok a2 := by
  refine ⟨by decide, by decide, ?_⟩
  obtain ⟨k, hk, hi, -, -, -, hsel, -, -⟩ :=
    manga_selection_in_range demoEnv demoConfig { demoFlags with manga := 2 } [a1, a2, c1]
      (by decide) (by decide)
  have hk1 : k = 1 := by
    simp only at hi
    omega
  subst hk1
  exact hsel

/-! ## C2: rejection of an index -/

/-- C2, as stated, fails at the manga index `-1`, which is not positive: the
command takes `-1` for "no index given" (line 141), lists the merged results
and returns; it does not fail with the out-of-range error. -/
theorem manga_index_minus_one_is_listed :
    ((-1 : Int) ≤ 0 ∨ (-1 : Int) > (([a1, a2, c1] : List URL).length : Int)) ∧
      afterSearch demoEnv demoConfig { demoFlags with manga := -1 } [a1, a2, c1] =
        { trace := [.printEntry 1 "One" none, .printEntry 2 "Two" none,
            .printEntry 3 "One C" none],
          exit := .returned, asTemp := false } ∧
      (Run demoEnv { demoFlags with manga := -1 } (atomicSchedule [0, 1, 2])).exit ≠
        .fatal "Index out of range" := by
  decide

/-- C2, amended. For every merged list `manga` and every manga index `i`
with `i ≤ 0` or `i > len(manga)`: no manga is selected, `GetChapters` and
`DownloadChapter` are never called; when `i ≠ -1` the command stops with the
out-of-range error, and when `i = -1` it lists the merged results instead.
For every non-positive chapter index `j`, after a manga has been selected
and its chapters obtained: when `j = -1` the chapters are listed, and when
`j ≠ -1` and no chapter carries the index `j` the command stops with the
out-of-range error; in both cases `DownloadChapter` is never called. -/
theorem index_rejection (env : Env) (cfg : Config) (f : Flags) (manga : List URL) :
    ((f.manga ≤ 0 ∨ f.manga > (manga.length : Int)) →
      (∀ sel, selectManga f manga ≠ .ok sel) ∧
      (∀ e ∈ (afterSearch env cfg f manga).trace,
        e.isGetChapters = false ∧ e.isDownload = false) ∧
      (f.manga ≠ -1 →
        afterSearch env cfg f manga = ⟨[], .fatal "Index out of range", f.temp⟩) ∧
      (f.manga = -1 → afterSearch env cfg f manga = listManga env f manga)) ∧
    (∀ sel chapters, f.manga ≠ -1 → selectManga f manga = .ok sel →
      env.GetChapters sel.Scraper sel = .ok chapters → f.chapter ≤ 0 →
      (f.chapter = -1 →
        afterSearch env cfg f manga =
          (listChapters env f chapters).after [.getChapters sel.Scraper sel]) ∧
      (f.chapter ≠ -1 → (∀ c ∈ chapters, c.Index ≠ f.chapter) →
        afterSearch env cfg f manga =
          ⟨[.getChapters sel.Scraper sel], .fatal "Index out of range", f.temp⟩) ∧
      ((f.chapter = -1 ∨ ∀ c ∈ chapters, c.Index ≠ f.chapter) →
        ∀ e ∈ (afterSearch env cfg f manga).trace, e.isDownload = false)) := by
  constructor
  · intro hi
    have hout := selectManga_out_of_range f manga hi
    have hfatal : f.manga ≠ -1 →
        afterSearch env cfg f manga = ⟨[], .fatal "Index out of range", f.temp⟩ := by
      intro hne
      unfold afterSearch
      rw [if_pos hne, hout]
    have hlist : f.manga = -1 → afterSearch env cfg f manga = listManga env f manga := by
      intro he
      unfold afterSearch
      rw [if_neg (by simp [he])]
    refine ⟨?_, ?_, hfatal, hlist⟩
    · intro sel hsel
      rw [hout] at hsel
      cases hsel
    · intro e he
      by_cases hne : f.manga = -1
      · rw [hlist hne] at he
        exact ⟨(listManga_trace env f manga e he).1, (listManga_trace env f manga e he).2.1⟩
      · rw [hfatal hne] at he
        simp at he
  · intro sel chapters hne hsel hch hj
    have hafter := afterSearch_selected env cfg f manga sel chapters hne hsel hch
    have hfind : (∀ c ∈ chapters, c.Index ≠ f.chapter) →
        chapterBranch env cfg f sel chapters = ⟨[], .fatal "Index out of range", f.temp⟩ := by
      intro hall
      unfold chapterBranch
      rw [Find_none chapters _ (fun c hc => by simpa using hall c hc)]
    have hlist : f.chapter = -1 →
        afterSearch env cfg f manga =
          (listChapters env f chapters).after [.getChapters sel.Scraper sel] := by
      intro he
      rw [hafter, if_neg (by simp [he])]
    have hfatal : f.chapter ≠ -1 → (∀ c ∈ chapters, c.Index ≠ f.chapter) →
        afterSearch env cfg f manga =
          ⟨[.getChapters sel.Scraper sel], .fatal "Index out of range", f.temp⟩ := by
      intro hc hall
      rw [hafter, if_pos hc, hfind hall]
      rfl
    refine ⟨hlist, hfatal, ?_⟩
    intro hor e he
    by_cases hc : f.chapter = -1
    · rw [hlist hc, after_trace] at he
      simp only [List.singleton_append, List.mem_cons] at he
      rcases he with rfl | he
      · rfl
      · exact (listChapters_trace env f chapters e he).2.1
    · rcases hor with h | hall
      · exact absurd h hc
      · rw [hfatal hc hall] at he
        simp only [List.mem_singleton] at he
        subst he
        rfl

/-- C2, amended, at the list `[a1, a2, c1]` : the manga indices 0 and 4 are
rejected with the out-of-range error, and so is the chapter index 0 for the
chapters `[ch1, ch2]`, without any download. -/
theorem index_rejection_witness :
    afterSearch demoEnv demoConfig { demoFlags with manga := 0 } [a1, a2, c1] =
        ⟨[], .fatal "Index out of range", false⟩ ∧
      afterSearch demoEnv demoConfig { demoFlags with manga := 4 } [a1, a2, c1] =
        ⟨[], .fatal "Index out of range", false⟩ ∧
      afterSearch demoEnv demoConfig { demoFlags with manga := 2, chapter := 0 } [a1, a2, c1] =
        ⟨[.getChapters 0 a2], .fatal "Index out of range", false⟩ :=
  ⟨((index_rejection demoEnv demoConfig { demoFlags with manga := 0 } [a1, a2, c1]).1
      (by decide)).2.2.1 (by decide),
    ((index_rejection demoEnv demoConfig { demoFlags with manga := 4 } [a1, a2, c1]).1
      (by decide)).2.2.1 (by decide),
    ((index_rejection demoEnv demoConfig { demoFlags with manga := 2, chapter := 0 }
      [a1, a2, c1]).2 a2 [ch1, ch2] (by decide) rfl rfl (by decide)).2.1
      (by decide) (by decide)⟩

/-! ## C6: the empty query -/

/-- C6, as stated, fails for a configuration that does not validate: with the
empty query the command stops at line 110 with the error of the validation,
not with the query error. -/
theorem empty_query_invalid_config :
    Run invalidConfigEnv { demoFlags with query := "" } [] = ⟨[], .fatal "unknown format"⟩ ∧
      (Run invalidConfigEnv { demoFlags with query := "" } []).exit ≠
        .fatal "Query expected" := by
  decide

/-- C6, amended. For every environment, every configuration, every set of
scrapers and every schedule, when the query is the empty string the command
stops with a fatal error before the fan-out: nothing has been called, so
`SearchManga` is called on no scraper; the error is the query error whenever
the configuration loads and validates, and the error of the configuration
otherwise. -/
theorem empty_query_rejected (env : Env) (f : Flags) (sched : List Nat)
    (hq : f.query = "") :
    (Run env f sched).trace = [] ∧
      (∀ e ∈ (Run env f sched).trace, e.isSearch = false) ∧
      (∀ cfg, loadConfig env f = .ok cfg →
        (Run env f sched).exit = .fatal "Query expected") ∧
      (∀ e, loadConfig env f = .error e → (Run env f sched).exit = .fatal e) := by
  have htrace : (Run env f sched).trace = [] := by
    rcases Run_cases env f sched with ⟨e, -, h⟩ | ⟨cfg, -, -, h⟩ | ⟨cfg, b, -, hne, -, -⟩
    · rw [h]
    · rw [h]
    · exact absurd hq hne
  refine ⟨htrace, ?_, ?_, ?_⟩
  · intro e he
    rw [htrace] at he
    cases he
  · intro cfg hcfg
    rw [Run, inlineBody_empty_query env f sched cfg hcfg hq]
    rfl
  · intro e hcfg
    rw [Run, inlineBody_config_error env f sched e hcfg]
    rfl

/-- C6, amended, at the sample environment: the empty query ends the command
with the query error and an empty trace. -/
theorem empty_query_rejected_witness :
    Run demoEnv { demoFlags with query := "" } (atomicSchedule [0, 1, 2]) =
      ⟨[], .fatal "Query expected"⟩ := by
  have h := empty_query_rejected demoEnv { demoFlags with query := "" }
    (atomicSchedule [0, 1, 2]) rfl
  have h2 := h.2.2.1 demoConfig rfl
  have h1 := h.1
  revert h1 h2
  generalize Run demoEnv { demoFlags with query := "" } (atomicSchedule [0, 1, 2]) = r
  intro h1 h2
  cases r
  simp only at h1 h2
  rw [h1, h2]

/-! ## C7: failure of the packager -/

/-- C7, as stated, fails: the download succeeds with the path
`/downloads/Chapter 2`, the packager is there and its `Write` fails; the
command stops with the packaging error at line 177 and the path is never
printed. -/
theorem packaging_failure_prints_no_path :
    packagerFailsEnv.DownloadChapter ch2 false = .ok "/downloads/Chapter 2" ∧
      Run packagerFailsEnv { demoFlags with manga := 2, chapter := 2 }
        (atomicSchedule [0, 1, 2]) =
        ⟨[.searchManga 0 "x", .searchManga 1 "x", .searchManga 2 "x", .getChapters 0 a2,
            .downloadChapter ch2 false, .setAuthor "https://a",
            .epubWrite "/downloads/Chapter 2"],
          .fatal "Error while making epub file"⟩ ∧
      Event.println "/downloads/Chapter 2" ∉
        (Run packagerFailsEnv { demoFlags with manga := 2, chapter := 2 }
          (atomicSchedule [0, 1, 2])).trace := by
  refine ⟨rfl, by decide, by decide⟩

/-- C7, amended. For every run in which `DownloadChapter` is called and
succeeds with the path `p`, the packager is there (`EpubFile != nil`) and its
`Write`, with the author set from the selected manga `sel`, fails: the
command stops with the packaging error, which is not the fetch error; the
packager's `Write` is the last thing done, so the path `p` is not printed,
no reader is opened, and the temp sweep does not run. -/
theorem packaging_failure (env : Env) (f : Flags) (sched : List Nat) (sel ch : URL)
    (t : Bool) (p : String) (write : String → String → Option String) (err : String)
    (hsel : Event.getChapters sel.Scraper sel ∈ (Run env f sched).trace)
    (hcall : Event.downloadChapter ch t ∈ (Run env f sched).trace)
    (hdl : env.DownloadChapter ch t = .ok p)
    (hepub : env.EpubFile = some write)
    (hw : write (env.SourceBase sel.Scraper) p = some err) :
    (Run env f sched).exit = .fatal "Error while making epub file" ∧
      Exit.fatal "Error while making epub file" ≠ Exit.fatal "Error while downloading chapter" ∧
      (Run env f sched).trace.getLast? = some (.epubWrite p) ∧
      Event.println p ∉ (Run env f sched).trace ∧
      (∀ e ∈ (Run env f sched).trace, e.isDelivery = false) ∧
      Event.removeTemp ∉ (Run env f sched).trace := by
  rcases Run_cases env f sched with ⟨e, -, h⟩ | ⟨cfg, -, -, h⟩ | ⟨cfg, b, hcfg, hne, hb, h⟩
  · rw [h] at hcall
    cases hcall
  · rw [h] at hcall
    cases hcall
  · have hst := searchAll_trace env f.query cfg.Scrapers sched
    rw [h] at hsel hcall ⊢
    rw [mem_runDeferred_after b _ (.getChapters sel.Scraper sel) hst rfl (by simp)] at hsel
    rw [mem_runDeferred_after b _ (.downloadChapter ch t) hst rfl (by simp)] at hcall
    cases hb with
    | mangaListed hm =>
      exact absurd (listManga_trace env f _ _ hcall).2.1 (by simp [Event.isDownload])
    | mangaOutOfRange hm hr => cases hcall
    | chaptersFailed sel2 err2 hm hsel2 hch => simp at hcall
    | chaptersListed sel2 chapters hm hsel2 hch hc =>
      simp only [after_trace, List.singleton_append, List.mem_cons, reduceCtorEq,
        false_or] at hcall
      exact absurd (listChapters_trace env f _ _ hcall).2.1 (by simp [Event.isDownload])
    | chapterOutOfRange sel2 chapters hm hsel2 hch hc hfind => simp at hcall
    | fetchFailed sel2 chapters ch2 err2 hm hsel2 hch hc hfind hdl2 =>
      simp only [List.mem_cons, reduceCtorEq, Event.downloadChapter.injEq, List.mem_nil_iff,
        or_false, false_or] at hcall
      obtain ⟨rfl, rfl⟩ := hcall
      rw [hdl] at hdl2
      cases hdl2
    | fetched sel2 chapters ch2 p2 hm hsel2 hch hc hfind hdl2 hepub2 =>
      rw [hepub] at hepub2
      cases hepub2
    | packageFailed sel2 chapters ch2 p2 write2 err2 hm hsel2 hch hc hfind hdl2 hepub2 hw2 =>
      simp only [List.mem_cons, reduceCtorEq, Event.downloadChapter.injEq, List.mem_nil_iff,
        or_false, false_or] at hcall
      obtain ⟨rfl, rfl⟩ := hcall
      rw [hdl] at hdl2
      cases hdl2
      have htr := runDeferred_trace_fatal
        (Body.after (searchAll env f.query cfg.Scrapers sched).trace
          ⟨[.getChapters sel2.Scraper sel2, .downloadChapter ch (f.temp || f.read),
            .setAuthor (env.SourceBase sel2.Scraper), .epubWrite p],
            .fatal "Error while making epub file", f.temp || f.read⟩) _ rfl
      rw [htr, runDeferred_exit]
      simp only [after_trace, after_exit]
      refine ⟨trivial, by decide, by simp, ?_, ?_, ?_⟩
      · intro hmem
        rcases List.mem_append.mp hmem with hmem | hmem
        · exact absurd (hst _ hmem) (by simp [Event.isSearch])
        · simp at hmem
      · intro e hmem
        rcases List.mem_append.mp hmem with hmem | hmem
        · exact (isSearch_not_others e (hst e hmem)).2.2.2.1
        · simp only [List.mem_cons, List.mem_nil_iff, or_false] at hmem
          rcases hmem with rfl | rfl | rfl | rfl <;> rfl
      · intro hmem
        rcases List.mem_append.mp hmem with hmem | hmem
        · exact absurd (hst _ hmem) (by simp [Event.isSearch])
        · simp at hmem
    | packaged sel2 chapters ch2 p2 write2 hm hsel2 hch hc hfind hdl2 hepub2 hw2 =>
      obtain ⟨d, hd, hdel, -, -⟩ := deliver_trace cfg f p2 (f.temp || f.read)
      rw [hd] at hsel hcall
      simp only [List.cons_append, List.nil_append, List.mem_cons, reduceCtorEq,
        Event.downloadChapter.injEq, Event.getChapters.injEq, List.mem_nil_iff, or_false,
        false_or] at hcall hsel
      rcases hcall with ⟨rfl, rfl⟩ | rfl
      · rw [hdl] at hdl2
        cases hdl2
        rw [hepub] at hepub2
        cases hepub2
        rcases hsel with ⟨-, rfl⟩ | rfl
        · rw [hw] at hw2
          cases hw2
        · simp [Event.isDelivery] at hdel
      · simp [Event.isDelivery] at hdel

/-- C7, amended, at the sample run with the failing packager: the chapter is
downloaded to `/downloads/Chapter 2`, the run ends with the packaging error
and the path is not printed. -/
theorem packaging_failure_witness :
    Event.downloadChapter ch2 false ∈
        (Run packagerFailsEnv { demoFlags with manga := 2, chapter := 2 }
          (atomicSchedule [0, 1, 2])).trace ∧
      packagerFailsEnv.DownloadChapter ch2 false = .ok "/downloads/Chapter 2" ∧
      (Run packagerFailsEnv { demoFlags with manga := 2, chapter := 2 }
          (atomicSchedule [0, 1, 2])).exit = .fatal "Error while making epub file" ∧
      Event.println "/downloads/Chapter 2" ∉
        (Run packagerFailsEnv { demoFlags with manga := 2, chapter := 2 }
          (atomicSchedule [0, 1, 2])).trace :=
  have h := packaging_failure packagerFailsEnv { demoFlags with manga := 2, chapter := 2 }
    (atomicSchedule [0, 1, 2]) a2 ch2 false "/downloads/Chapter 2"
    (fun _ _ => some "disk full") "disk full" (by decide) (by decide) rfl rfl rfl
  ⟨by decide, rfl, h.1, h.2.2.2.1⟩

/-! ## C8: the packager runs only after a successful fetch -/

/-- C8. In every run of the command: `DownloadChapter` is called at most
once; if the packager is invoked at all, then the run is the calls of
`SearchManga`, then `GetChapters` on the selected manga `sel` (the element of
the merged list that the manga index selects), then a call of
`DownloadChapter` that returned the path `p` without error, then `SetAuthor`
with the source base of the scraper of `sel` and `Write` with that path `p`,
and nothing after that calls the packager or the downloader again; and
when a call of `DownloadChapter` fails, the run ends with the fetch error,
the packager is never invoked and nothing is printed or opened. -/
theorem packaging_only_after_fetch (env : Env) (f : Flags) (sched : List Nat) :
    ((Run env f sched).trace.filter Event.isDownload).length ≤ 1 ∧
    ((∃ e ∈ (Run env f sched).trace, e.isPackager = true) →
      ∃ pre post cfg sel ch t p,
        (Run env f sched).trace =
          pre ++ [.getChapters sel.Scraper sel, .downloadChapter ch t,
            .setAuthor (env.SourceBase sel.Scraper), .epubWrite p] ++ post ∧
        env.DownloadChapter ch t = .ok p ∧
        loadConfig env f = .ok cfg ∧
        selectManga f (searchAll env f.query cfg.Scrapers sched).manga = .ok sel ∧
        (∀ e ∈ pre, e.isSearch = true) ∧
        (∀ e ∈ post, e.isPackager = false ∧ e.isDownload = false)) ∧
    (∀ ch t err, Event.downloadChapter ch t ∈ (Run env f sched).trace →
      env.DownloadChapter ch t = .error err →
      (Run env f sched).exit = .fatal "Error while downloading chapter" ∧
      (∀ e ∈ (Run env f sched).trace, e.isPackager = false ∧ e.isDelivery = false)) := by
  rcases Run_cases env f sched with ⟨e, -, h⟩ | ⟨cfg, -, -, h⟩ | ⟨cfg, b, hcfg, hne, hb, h⟩
  · rw [h]
    simp
  · rw [h]
    simp
  · have hst := searchAll_trace env f.query cfg.Scrapers sched
    obtain ⟨tail, htr, hex, htail, -⟩ :=
      runDeferred_after_shape b (searchAll env f.query cfg.Scrapers sched).trace
    rw [h, htr, hex]
    have hstD : (searchAll env f.query cfg.Scrapers sched).trace.filter Event.isDownload = [] :=
      List.filter_eq_nil_iff.mpr (fun e he => by simp [(isSearch_not_others e (hst e he)).2.1])
    have htailD : tail.filter Event.isDownload = [] := by
      rcases htail with rfl | rfl <;> rfl
    have htailP : ∀ e ∈ tail, e.isPackager = false ∧ e.isDownload = false ∧
        e.isDelivery = false := by
      rcases htail with rfl | rfl <;> simp [Event.isPackager, Event.isDownload,
        Event.isDelivery]
    obtain ⟨hone, hpack, hfail⟩ := hb.fetch_and_package
    refine ⟨?_, ?_, ?_⟩
    · rw [List.filter_append, List.filter_append, hstD, htailD]
      simpa using hone
    · rintro ⟨e, he, hp⟩
      have heb : e ∈ b.trace := by
        rcases List.mem_append.mp he with he | he
        · rcases List.mem_append.mp he with he | he
          · simp [(isSearch_not_others e (hst e he)).2.2.1] at hp
          · exact he
        · simp [(htailP e he).1] at hp
      obtain ⟨post, sel, ch, t, p, hbt, hdl, hsel, hpost⟩ := hpack ⟨e, heb, hp⟩
      refine ⟨_, post ++ tail, cfg, sel, ch, t, p, ?_, hdl, hcfg, hsel, hst, ?_⟩
      · rw [hbt]
        simp
      · intro x hx
        rcases List.mem_append.mp hx with hx | hx
        · exact ⟨(hpost x hx).1, (hpost x hx).2.1⟩
        · exact ⟨(htailP x hx).1, (htailP x hx).2.1⟩
    · intro ch t err hmem herr
      have hmb : Event.downloadChapter ch t ∈ b.trace := by
        rcases List.mem_append.mp hmem with hmem | hmem
        · rcases List.mem_append.mp hmem with hmem | hmem
          · exact absurd (hst _ hmem) (by simp [Event.isSearch])
          · exact hmem
        · exact absurd (htailP _ hmem).2.1 (by simp [Event.isDownload])
      obtain ⟨hexit, hall⟩ := hfail ch t err hmb herr
      refine ⟨hexit, ?_⟩
      intro x hx
      rcases List.mem_append.mp hx with hx | hx
      · rcases List.mem_append.mp hx with hx | hx
        · exact ⟨(isSearch_not_others x (hst x hx)).2.2.1,
            (isSearch_not_others x (hst x hx)).2.2.2.1⟩
        · exact hall x hx
      · exact ⟨(htailP x hx).1, (htailP x hx).2.2⟩

/-- C8 at two sample runs: with a working packager the run is search, search,
search, `GetChapters`, the fetch, `SetAuthor` with the source base of the
scraper of the selected manga, `Write` with the path fetched, the print of
the path and the temp sweep; with a failing downloader the run ends with the
fetch error right after the single call of `DownloadChapter`. -/
theorem packaging_only_after_fetch_witness :
    Run packagerWorksEnv { demoFlags with manga := 2, chapter := 2 }
        (atomicSchedule [0, 1, 2]) =
        ⟨[.searchManga 0 "x", .searchManga 1 "x", .searchManga 2 "x", .getChapters 0 a2,
            .downloadChapter ch2 false, .setAuthor "https://a",
            .epubWrite "/downloads/Chapter 2", .println "/downloads/Chapter 2",
            .removeTemp],
          .returned⟩ ∧
      (Run downloadFailsEnv { demoFlags with manga := 2, chapter := 2 }
        (atomicSchedule [0, 1, 2])).exit = .fatal "Error while downloading chapter" ∧
      (∀ e ∈ (Run downloadFailsEnv { demoFlags with manga := 2, chapter := 2 }
        (atomicSchedule [0, 1, 2])).trace, e.isPackager = false ∧ e.isDelivery = false) :=
  have h := (packaging_only_after_fetch downloadFailsEnv
    { demoFlags with manga := 2, chapter := 2 } (atomicSchedule [0, 1, 2])).2.2
    ch2 false "connection reset" (by decide) rfl
  ⟨by decide, h.1, h.2⟩

/-! ## C10: temporary mode and temp sweep -/

/-- C10. In every run: every call of `DownloadChapter` is made with the
temporary mode `temp || read`; the run never panics, so it ends by a normal
return or by `log.Fatal`; when it returns normally the temp sweep
(`RemoveTemp`) has run exactly when the final mode is not temporary, that
is, unless `--temp` is set or a chapter was downloaded with `--read`; when
it ends by `log.Fatal` the sweep has not run; and the sweep runs at most
once. -/
theorem temp_mode_and_sweep (env : Env) (f : Flags) (sched : List Nat) :
    (∀ ch t, Event.downloadChapter ch t ∈ (Run env f sched).trace →
      t = (f.temp || f.read)) ∧
    ((Run env f sched).exit = .returned →
      (Event.removeTemp ∈ (Run env f sched).trace ↔
        ¬ (f.temp = true ∨
          (f.read = true ∧ ∃ e ∈ (Run env f sched).trace, e.isDownload = true)))) ∧
    (∀ msg, (Run env f sched).exit = .fatal msg →
      Event.removeTemp ∉ (Run env f sched).trace) ∧
    (Run env f sched).exit ≠ .panicked ∧
    (Run env f sched).trace.count .removeTemp ≤ 1 := by
  rcases Run_cases env f sched with ⟨e, -, h⟩ | ⟨cfg, -, -, h⟩ | ⟨cfg, b, hcfg, hne, hb, h⟩
  · rw [h]
    simp
  · rw [h]
    simp
  · have hst := searchAll_trace env f.query cfg.Scrapers sched
    obtain ⟨tail, htr, hex, htail, htailiff⟩ :=
      runDeferred_after_shape b (searchAll env f.query cfg.Scrapers sched).trace
    obtain ⟨hmode, htemp, hnoR, hnoP⟩ := hb.temp_mode
    rw [h, htr, hex]
    have hstR : Event.removeTemp ∉ (searchAll env f.query cfg.Scrapers sched).trace :=
      fun hm => absurd (hst _ hm) (by simp [Event.isSearch])
    have hmemR : Event.removeTemp ∈
        (searchAll env f.query cfg.Scrapers sched).trace ++ b.trace ++ tail ↔
        tail = [.removeTemp] := by
      rcases htail with rfl | rfl <;> simp [hstR, hnoR]
    have hdown : (∃ e ∈ (searchAll env f.query cfg.Scrapers sched).trace ++ b.trace ++ tail,
        e.isDownload = true) ↔ ∃ e ∈ b.trace, e.isDownload = true := by
      constructor
      · rintro ⟨e, he, hd⟩
        rcases List.mem_append.mp he with he | he
        · rcases List.mem_append.mp he with he | he
          · simp [(isSearch_not_others e (hst e he)).2.1] at hd
          · exact ⟨e, he, hd⟩
        · rcases htail with rfl | rfl
          · cases he
          · simp only [List.mem_singleton] at he
            subst he
            simp [Event.isDownload] at hd
      · rintro ⟨e, he, hd⟩
        exact ⟨e, by simp [he], hd⟩
    refine ⟨?_, ?_, ?_, hnoP, ?_⟩
    · intro ch t hmem
      rcases List.mem_append.mp hmem with hmem | hmem
      · rcases List.mem_append.mp hmem with hmem | hmem
        · exact absurd (hst _ hmem) (by simp [Event.isSearch])
        · exact hmode ch t hmem
      · rcases htail with rfl | rfl <;> simp at hmem
    · intro hret
      rw [hmemR, htailiff, hdown, ← htemp hret]
      constructor
      · rintro ⟨h1, -⟩
        simp [h1]
      · intro h1
        exact ⟨by simpa using h1, fun msg => by simp [hret]⟩
    · intro msg hfatal
      rw [hmemR, htailiff]
      rintro ⟨-, h2⟩
      exact h2 msg hfatal
    · rw [List.count_append, List.count_append, List.count_eq_zero_of_not_mem hstR,
        List.count_eq_zero_of_not_mem hnoR]
      rcases htail with rfl | rfl <;> simp

/-- C10 at the sample run with `--read` and without `--temp`: the chapter is
downloaded in temporary mode, opened in the reader, and the temp sweep does
not run. -/
theorem temp_mode_and_sweep_witness :
    Run demoEnv { demoFlags with manga := 2, chapter := 2, read := true }
        (atomicSchedule [0, 1, 2]) =
        ⟨[.searchManga 0 "x", .searchManga 1 "x", .searchManga 2 "x", .getChapters 0 a2,
            .downloadChapter ch2 true, .openStart "/downloads/Chapter 2"],
          .returned⟩ ∧
      true = (({ demoFlags with manga := 2, chapter := 2, read := true } : Flags).temp ||
        ({ demoFlags with manga := 2, chapter := 2, read := true } : Flags).read) ∧
      Event.removeTemp ∈ (Run demoEnv { demoFlags with manga := 2, chapter := 2 }
        (atomicSchedule [0, 1, 2])).trace :=
  ⟨by decide,
    (temp_mode_and_sweep demoEnv { demoFlags with manga := 2, chapter := 2, read := true }
      (atomicSchedule [0, 1, 2])).1 ch2 true (by decide),
    by decide⟩

/-! ## C9: selection of the chapter -/

/-- C9. For every chapter list whose handles carry the indices `1..N` in
list order and every `i ≥ 1`, the lookup of line 155 returns the `i`-th
element of the list (the element at position `k` with `k + 1 = i`) when
`i ≤ N`, and reports not-found when `i > N`, in which case the command stops
with the out-of-range error. Without the precondition, for every list `l`
and every `j`, the lookup returns the first chapter whose `Index` is `j`
(an element with that index before which no element has it), and for the
list `[ch2, ch1]` and the index 1, which is in `1..2`, that is not the first
element of the list. -/
theorem chapter_selection (chapters : List URL) (i : Int)
    (hdense : chapters.map (fun c => c.Index) =
      (List.range chapters.length).map (fun (k : Nat) => (k : Int) + 1))
    (hi : 1 ≤ i) :
    (i ≤ (chapters.length : Int) →
      ∃ (k : Nat) (hk : k < chapters.length), (k : Int) + 1 = i ∧
        Find chapters (fun c => c.Index == i) = some chapters[k]) ∧
    ((chapters.length : Int) < i →
      Find chapters (fun c => c.Index == i) = none ∧
      ∀ (env : Env) (cfg : Config) (f : Flags) (sel : URL), f.chapter = i →
        chapterBranch env cfg f sel chapters = ⟨[], .fatal "Index out of range", f.temp⟩) ∧
    (∀ (l : List URL) (j : Int) (c : URL),
      Find l (fun c => c.Index == j) = some c ↔
        c.Index = j ∧ ∃ (m : Nat) (hm : m < l.length), l[m] = c ∧
          ∀ (n : Nat) (hn : n < m), l[n].Index ≠ j) ∧
    ((1 : Int) ≤ 1 ∧ (1 : Int) ≤ (([ch2, ch1] : List URL).length : Int) ∧
      Find [ch2, ch1] (fun c => c.Index == 1) = some ch1 ∧
      ([ch2, ch1] : List URL)[0]? = some ch2 ∧ ch1 ≠ ch2) := by
  have hidx : ∀ (m : Nat) (hm : m < chapters.length), chapters[m].Index = (m : Int) + 1 := by
    intro m hm
    have h1 : (chapters.map (fun c => c.Index))[m]? =
        ((List.range chapters.length).map (fun (k : Nat) => (k : Int) + 1))[m]? := by rw [hdense]
    rw [List.getElem?_map, List.getElem?_map, List.getElem?_range hm,
      List.getElem?_eq_getElem hm] at h1
    exact Option.some.inj h1
  have hfirst : ∀ (l : List URL) (j : Int) (c : URL),
      Find l (fun c => c.Index == j) = some c ↔
        c.Index = j ∧ ∃ (m : Nat) (hm : m < l.length), l[m] = c ∧
          ∀ (n : Nat) (hn : n < m), l[n].Index ≠ j := by
    intro l j c
    rw [Find_eq_find?, List.find?_eq_some_iff_getElem]
    simp
  have hnone : (chapters.length : Int) < i → Find chapters (fun c => c.Index == i) = none := by
    intro hlt
    apply Find_none
    intro c hc
    obtain ⟨m, hm, rfl⟩ := List.mem_iff_getElem.mp hc
    have := hidx m hm
    simp only [beq_eq_false_iff_ne, ne_eq]
    omega
  refine ⟨?_, ?_, hfirst, by decide, by decide, by decide, rfl, by decide⟩
  · intro hle
    have hk : (i - 1).toNat < chapters.length := by omega
    have hki : (((i - 1).toNat : Nat) : Int) + 1 = i := by omega
    refine ⟨(i - 1).toNat, hk, hki, ?_⟩
    rw [hfirst]
    refine ⟨by rw [hidx _ hk]; exact hki, (i - 1).toNat, hk, rfl, ?_⟩
    intro n hn
    have := hidx n (by omega)
    omega
  · intro hlt
    refine ⟨hnone hlt, ?_⟩
    intro env cfg f sel hf
    unfold chapterBranch
    rw [hf, hnone hlt]

/-- C9 at the chapters `[ch1, ch2]`, which carry the indices 1 and 2: the
index 2 selects the second chapter and the index 3 is not found. -/
theorem chapter_selection_witness :
    Find [ch1, ch2] (fun c => c.Index == 2) = some ch2 ∧
      Find [ch1, ch2] (fun c => c.Index == 3) = none := by
  have h2 := (chapter_selection [ch1, ch2] 2 (by decide) (by decide)).1 (by decide)
  have h3 := (chapter_selection [ch1, ch2] 3 (by decide) (by decide)).2.1 (by decide)
  obtain ⟨k, hk, hki, hfind⟩ := h2
  have hk1 : k = 1 := by omega
  subst hk1
  exact ⟨hfind, h3.1⟩

/-! ## C4: contents of the merged list -/

/-- C4. For every environment, every list of scrapers (of any length, with
any mix of succeeding and failing scrapers) and every schedule of the
goroutines in which each append to `manga` is one atomic step, in a run that
reaches the search: after the join `manga` is a rearrangement of the
concatenation of the successful result lists, so it contains exactly their
elements with multiplicity, and its length is the sum of their lengths; a
failing scraper contributes nothing; the list is empty when every scraper
fails or there is none; and the listing of the results (no manga index, no
JSON) returns without error, whatever scrapers failed, and prints one entry
for each result, in the order of the list, with the indices `1..len` without
a gap. -/
theorem merged_contents (env : Env) (f : Flags) (sched : List Nat) (cfg : Config)
    (hcfg : loadConfig env f = .ok cfg) (hq : f.query ≠ "")
    (hat : appendsAtomic env f.query cfg.Scrapers Shared.init sched = true) :
    (searchAll env f.query cfg.Scrapers sched).manga.Perm
        (mergeInOrder env f.query cfg.Scrapers) ∧
      (searchAll env f.query cfg.Scrapers sched).manga.length =
        (cfg.Scrapers.map (fun s => (contribution env f.query s).length)).sum ∧
      (∀ s e, env.SearchManga s f.query = .error e → contribution env f.query s = []) ∧
      (∀ s m, env.SearchManga s f.query = .ok m → contribution env f.query s = m) ∧
      ((∀ s ∈ cfg.Scrapers, ∃ e, env.SearchManga s f.query = .error e) →
        (searchAll env f.query cfg.Scrapers sched).manga = []) ∧
      (cfg.Scrapers = [] → (searchAll env f.query cfg.Scrapers sched).manga = []) ∧
      (f.manga = -1 → f.json = false →
        (Run env f sched).exit = .returned ∧
        (Run env f sched).trace =
          (searchAll env f.query cfg.Scrapers sched).trace ++
            (searchAll env f.query cfg.Scrapers sched).manga.enum.map (fun im =>
              .printEntry ((im.1 : Int) + 1) im.2.Info
                (if f.urls then some im.2.Address else none)) ++
            (if f.temp then [] else [.removeTemp]) ∧
        (Run env f sched).trace.filterMap Event.printedIndex =
          (List.range (searchAll env f.query cfg.Scrapers sched).manga.length).map
            (fun (k : Nat) => (k : Int) + 1)) := by
  have hperm : (searchAll env f.query cfg.Scrapers sched).manga.Perm
      (mergeInOrder env f.query cfg.Scrapers) :=
    searchAll_perm env f.query cfg.Scrapers sched hat
  have hfail : (∀ s ∈ cfg.Scrapers, ∃ e, env.SearchManga s f.query = .error e) →
      (searchAll env f.query cfg.Scrapers sched).manga = [] := by
    intro h
    have := hperm
    rw [mergeInOrder_all_fail env f.query cfg.Scrapers h] at this
    exact List.Perm.eq_nil this
  refine ⟨hperm, ?_, ?_, ?_, hfail, ?_, ?_⟩
  · rw [hperm.length_eq, mergeInOrder_length]
  · intro s e he
    unfold contribution
    rw [he]
  · intro s m he
    unfold contribution
    rw [he]
  · intro hnil
    apply hfail
    rw [hnil]
    simp
  · intro hmanga hjson
    have hst := searchAll_trace env f.query cfg.Scrapers sched
    have hrun : Run env f sched = runDeferred
        ((listManga env f (searchAll env f.query cfg.Scrapers sched).manga).after
          (searchAll env f.query cfg.Scrapers sched).trace) := by
      rw [Run, inlineBody_reached env f sched cfg hcfg hq]
      unfold afterSearch
      rw [if_neg (by simp [hmanga])]
    rw [listManga_entries env f _ hjson] at hrun
    have htrace : (Run env f sched).trace =
        (searchAll env f.query cfg.Scrapers sched).trace ++
          (searchAll env f.query cfg.Scrapers sched).manga.enum.map (fun im =>
            .printEntry ((im.1 : Int) + 1) im.2.Info
              (if f.urls then some im.2.Address else none)) ++
          (if f.temp then [] else [.removeTemp]) := by
      rw [hrun]
      cases f.temp <;> simp [runDeferred, Body.after]
    refine ⟨by rw [hrun]; rfl, htrace, ?_⟩
    rw [htrace, List.filterMap_append, List.filterMap_append]
    have h1 : (searchAll env f.query cfg.Scrapers sched).trace.filterMap Event.printedIndex =
        [] := by
      rw [List.filterMap_eq_nil_iff]
      intro e he
      have := hst e he
      cases e <;> simp_all [Event.isSearch, Event.printedIndex]
    have h3 : (if f.temp then [] else [Event.removeTemp]).filterMap Event.printedIndex =
        [] := by
      cases f.temp <;> rfl
    rw [h1, h3, List.nil_append, List.append_nil, List.filterMap_map]
    have h2 : (Event.printedIndex ∘ fun (im : Nat × URL) =>
        Event.printEntry ((im.1 : Int) + 1) im.2.Info
          (if f.urls then some im.2.Address else none)) =
        some ∘ ((fun (k : Nat) => (k : Int) + 1) ∘ Prod.fst) := by
      funext im
      rfl
    rw [h2, List.filterMap_eq_map, ← List.map_map, List.enum_map_fst]

/-- C4 at the sample scrapers (`A` finds two results, `B` fails, `C` finds
one) under the schedule in which the three searches start, then `C` appends,
then `A`, then `B` ends: the merged list has the three results and the
listing prints the indices 1, 2, 3. -/
theorem merged_contents_witness :
    appendsAtomic demoEnv "x" [0, 1, 2] Shared.init [0, 2, 1, 2, 2, 0, 0, 1, 1] = true ∧
      (searchAll demoEnv "x" [0, 1, 2] [0, 2, 1, 2, 2, 0, 0, 1, 1]).manga = [c1, a1, a2] ∧
      (searchAll demoEnv "x" [0, 1, 2] [0, 2, 1, 2, 2, 0, 0, 1, 1]).manga.length =
        ([0, 1, 2].map (fun s => (contribution demoEnv "x" s).length)).sum ∧
      (Run demoEnv demoFlags [0, 2, 1, 2, 2, 0, 0, 1, 1]).trace.filterMap
        Event.printedIndex = [1, 2, 3] :=
  have h := merged_contents demoEnv demoFlags [0, 2, 1, 2, 2, 0, 0, 1, 1] demoConfig rfl
    (by decide) (by decide)
  ⟨by decide, by decide, h.2.1, by decide⟩

/-! ## C3: order of the merged list -/

/-- C3, as stated, fails: with the sample scrapers (`A` finds `a1`, `a2`,
`B` fails, `C` finds `c1`) and atomic appends, when the goroutines end in
the order `C`, `B`, `A` the merged list is `[c1, a1, a2]`, not the
concatenation `[a1, a2, c1]` in registration order, and it differs from the
list of the run in which they end in the order `A`, `B`, `C`; the listing
then prints `c1` with the index 1. -/
theorem completion_order_changes_merged_list :
    appendsAtomic demoEnv "x" [0, 1, 2] Shared.init (atomicSchedule [2, 1, 0]) = true ∧
      (searchAll demoEnv "x" [0, 1, 2] (atomicSchedule [2, 1, 0])).manga = [c1, a1, a2] ∧
      mergeInOrder demoEnv "x" [0, 1, 2] = [a1, a2, c1] ∧
      (searchAll demoEnv "x" [0, 1, 2] (atomicSchedule [0, 1, 2])).manga = [a1, a2, c1] ∧
      (searchAll demoEnv "x" [0, 1, 2] (atomicSchedule [2, 1, 0])).manga ≠
        mergeInOrder demoEnv "x" [0, 1, 2] ∧
      Run demoEnv demoFlags (atomicSchedule [2, 1, 0]) =
        ⟨[.searchManga 2 "x", .searchManga 1 "x", .searchManga 0 "x",
            .printEntry 1 "One C" none, .printEntry 2 "One" none, .printEntry 3 "Two" none,
            .removeTemp],
          .returned⟩ := by
  decide

/-- C3, amended. For every list of scrapers, every outcome of each scraper
and every schedule of the goroutines in which each append to `manga` is one
atomic step: the merged list is the concatenation of the successful result
lists taken in the order in which the goroutines made their appends (the
assignments of line 132), each in its own order; the goroutines that append
are those whose search succeeded, each exactly once; the list is the
concatenation in registration order when the appends are made in
registration order; two runs with the same results in which the appends are
made in the same order yield the same list; and every order of the
goroutines is the order of the appends of some such run. -/
theorem merge_in_append_order (env : Env) (query : String) (scrapers : List Nat)
    (sched : List Nat)
    (hat : appendsAtomic env query scrapers Shared.init sched = true) :
    (searchAll env query scrapers sched).manga =
        mergeInOrder env query
          (scrapersAt scrapers (searchAll env query scrapers sched).appended) ∧
      (searchAll env query scrapers sched).appended.Perm
        ((List.range scrapers.length).filter (succeeds env query scrapers)) ∧
      ((searchAll env query scrapers sched).appended =
          (List.range scrapers.length).filter (succeeds env query scrapers) →
        (searchAll env query scrapers sched).manga = mergeInOrder env query scrapers) ∧
      (∀ sched2, appendsAtomic env query scrapers Shared.init sched2 = true →
        (searchAll env query scrapers sched2).appended =
          (searchAll env query scrapers sched).appended →
        (searchAll env query scrapers sched2).manga =
          (searchAll env query scrapers sched).manga) ∧
      (∀ order : List Nat, order.Perm (List.range scrapers.length) →
        appendsAtomic env query scrapers Shared.init (atomicSchedule order) = true ∧
        (searchAll env query scrapers (atomicSchedule order)).appended =
          order.filter (succeeds env query scrapers) ∧
        (searchAll env query scrapers (atomicSchedule order)).manga =
          mergeInOrder env query (scrapersAt scrapers order)) := by
  obtain ⟨hm, hp, -⟩ := searchAll_settled env query scrapers sched hat
  refine ⟨hm, hp, ?_, ?_, ?_⟩
  · intro hreg
    rw [hm, hreg, mergeInOrder_filter_succeeds, scrapersAt_range]
  · intro sched2 hat2 happ
    rw [(searchAll_settled env query scrapers sched2 hat2).1, hm, happ]
  · intro order horder
    have hnodup : order.Nodup := horder.nodup_iff.mpr (List.nodup_range _)
    have hlt : ∀ g ∈ order, g < scrapers.length :=
      fun g hg => List.mem_range.mp (horder.mem_iff.mp hg)
    obtain ⟨h1, -, h2, -⟩ := searchAll_atomicSchedule env query scrapers order horder
    exact ⟨appendsAtomic_atomicSchedule env query scrapers order Shared.init
      (fun _ _ => rfl) hnodup hlt, h1, h2⟩

/-- C3, amended, at the sample scrapers, under the schedule in which `A`
searches and appends, then `C` searches, appends and returns, then `A`
returns, then `B` fails and returns: the appends are atomic and made in the
order `A`, `C`, the goroutines return in the order `C`, `A`, `B`, and the
merged list is `[a1, a2, c1]`, the concatenation in the order of the
appends. -/
theorem merge_in_append_order_witness :
    appendsAtomic demoEnv "x" [0, 1, 2] Shared.init [0, 0, 0, 2, 2, 2, 2, 0, 1, 1] = true ∧
      (searchAll demoEnv "x" [0, 1, 2] [0, 0, 0, 2, 2, 2, 2, 0, 1, 1]).appended = [0, 2] ∧
      (searchAll demoEnv "x" [0, 1, 2] [0, 0, 0, 2, 2, 2, 2, 0, 1, 1]).finished =
        [2, 0, 1] ∧
      (searchAll demoEnv "x" [0, 1, 2] [0, 0, 0, 2, 2, 2, 2, 0, 1, 1]).manga =
        mergeInOrder demoEnv "x" [0, 1, 2] ∧
      mergeInOrder demoEnv "x" [0, 1, 2] = [a1, a2, c1] :=
  have h := merge_in_append_order demoEnv "x" [0, 1, 2] [0, 0, 0, 2, 2, 2, 2, 0, 1, 1]
    (by decide)
  ⟨by decide, by decide, by decide, h.2.2.1 (by decide), by decide⟩

/-! ## C5: the appends are not synchronized -/

/-- C5, the code at the failing input: two of the sample goroutines, `A` and
`C`, both load `manga` (still nil) before either stores its append; the store
of `C` then overwrites the store of `A`. After the join the merged list is
`[c1]`: both goroutines have made their append and all three have returned,
yet the results `a1`, `a2` of `A` are lost, and the listing prints one
entry. Nothing in `stepGo` orders the load and the store of one goroutine
against those of another: the schedule is a run of the command. -/
theorem unsynchronized_append_loses_results :
    (searchAll demoEnv "x" [0, 1, 2] [0, 2, 0, 2, 0, 2]).manga = [c1] ∧
      mergeInOrder demoEnv "x" [0, 1, 2] = [a1, a2, c1] ∧
      a1 ∉ (searchAll demoEnv "x" [0, 1, 2] [0, 2, 0, 2, 0, 2]).manga ∧
      (searchAll demoEnv "x" [0, 1, 2] [0, 2, 0, 2, 0, 2]).appended = [0, 2] ∧
      (searchAll demoEnv "x" [0, 1, 2] [0, 2, 0, 2, 0, 2]).finished = [0, 1, 2] ∧
      appendsAtomic demoEnv "x" [0, 1, 2] Shared.init [0, 2, 0, 2, 0, 2] = false ∧
      Run demoEnv demoFlags [0, 2, 0, 2, 0, 2] =
        ⟨[.searchManga 0 "x", .searchManga 2 "x", .searchManga 1 "x",
            .printEntry 1 "One C" none, .removeTemp],
          .returned⟩ := by
  decide

end Mangal
